import Mathlib

/-!
Verification of the UkWofost geospatial reference codec and weather-series
ingestion pipeline (`ukwofost/utils.py`, `ukwofost/weather_manager.py`).

The development shallowly embeds the Python source:

* the British National Grid codec (`lonlat2osgrid`, `osgrid2lonlat`,
  `osgrid2bbox`) is embedded over the projected OSGB36 plane; coordinates are
  rationals, grid references are lists of characters, and the external
  WGS84 <-> OSGB36 reprojection performed by `pyproj.Transformer` is treated
  as an exact external bijection, so round-trip statements are expressed in
  projected metres (which is also the unit of the spec's tolerances);
* the 360-day-calendar normalisation (`calc_doy`, the gap-fill loop of
  `NetCDFWeatherDataProvider._get_and_process_chessscape`) is embedded with
  Gregorian dates represented by their proleptic ordinals (as in Python's
  `datetime.date.toordinal`), and the iteration order of
  `list(set(...).difference(...))`, which Python leaves unspecified, is an
  explicit parameter constrained to be a permutation of the missing dates;
* the per-row unit conversion (`NetCDFWeatherDataProvider._read_observations`,
  `_is_missing_value`) is embedded with rational field values; the external
  `pcse.util.reference_ET` collaborator is an explicit function parameter;
* the cache decision sequence of `NetCDFWeatherDataProvider.__init__` is
  embedded as a function of the observable facts it branches on (cache file
  presence, age, load success, build outcome).
-/

namespace UkWofost

/-! ### British National Grid codec (`ukwofost/utils.py`) -/

/-- Error raised by the OS grid conversion functions; the Python source raises
a single `BNGError` exception class with distinct messages, modelled here as
distinct constructors. -/
inductive BNGErr where
  | badInput
  | outOfRegion
  | invalidFigs
  | invalidSquare
  | invalidCellsize
  deriving DecidableEq, Repr

/-- The 13-row by 7-column table of 100 km region codes, exactly as written in
`_init_regions_and_offsets`. -/
def regionsRaw : List (List String) :=
  [["HL", "HM", "HN", "HO", "HP", "JL", "JM"],
   ["HQ", "HR", "HS", "HT", "HU", "JQ", "JR"],
   ["HV", "HW", "HX", "HY", "HZ", "JV", "JW"],
   ["NA", "NB", "NC", "ND", "NE", "OA", "OB"],
   ["NF", "NG", "NH", "NJ", "NK", "OF", "OG"],
   ["NL", "NM", "NN", "NO", "NP", "OL", "OM"],
   ["NQ", "NR", "NS", "NT", "NU", "OQ", "OR"],
   ["NV", "NW", "NX", "NY", "NZ", "OV", "OW"],
   ["SA", "SB", "SC", "SD", "SE", "TA", "TB"],
   ["SF", "SG", "SH", "SJ", "SK", "TF", "TG"],
   ["SL", "SM", "SN", "SO", "SP", "TL", "TM"],
   ["SQ", "SR", "SS", "ST", "SU", "TQ", "TR"],
   ["SV", "SW", "SX", "SY", "SZ", "TV", "TW"]]

/-- The transposed-and-reversed table `list(zip(*regions[::-1]))`: the outer
index is the 100 km easting index (0..6), the inner the northing index
(0..12). -/
def regionsT : List (List String) :=
  regionsRaw.reverse.transpose

/-- Region lookup `_regions[i][j]` with non-negative indices. -/
def regionAt (i j : ℕ) : Option String :=
  (regionsT.get? i).bind fun row => row.get? j

/-- The `_offset_map` association list: `offset_map[region] = (1e5*i, 1e5*j)`
for the region at position `(i, j)` of the transposed table.  Offsets are
exact integers (metres). -/
def offsetEntries : List (String × ℤ × ℤ) :=
  (regionsT.enum.map fun p =>
    (p.2.enum.map fun q => (q.2, (100000 : ℤ) * p.1, (100000 : ℤ) * q.1))).flatten

/-- Lookup in `_offset_map`. -/
def offsetMap (r : String) : Option (ℤ × ℤ) :=
  (offsetEntries.find? fun e => e.1 == r).map fun e => e.2

/-- Character-code test for an ASCII decimal digit (`\d` in the source's
regular expressions). -/
def isDigitChar (c : Char) : Bool :=
  48 ≤ c.toNat && c.toNat ≤ 57

/-- Character-code test for an ASCII uppercase letter (`[A-Z]` in the
source's regular expressions). -/
def isUpperChar (c : Char) : Bool :=
  65 ≤ c.toNat && c.toNat ≤ 90

/-- ASCII upper-casing of one character, as performed by `str.upper()` on the
characters appearing in grid references. -/
def toUpperChar (c : Char) : Char :=
  if 97 ≤ c.toNat && c.toNat ≤ 122 then Char.ofNat (c.toNat - 32) else c

/-- Numeric value of a digit string (`int(...)` on a run of digit
characters). -/
def digitsVal (l : List Char) : ℕ :=
  l.foldl (fun a c => 10 * a + (c.toNat - 48)) 0

/-- The decimal digit character for a value below ten. -/
def digitChar : ℕ → Char
  | 0 => '0'
  | 1 => '1'
  | 2 => '2'
  | 3 => '3'
  | 4 => '4'
  | 5 => '5'
  | 6 => '6'
  | 7 => '7'
  | 8 => '8'
  | _ => '9'

/-- Zero-padded fixed-width decimal rendering of `n` on `k` digits, as
produced by the `"{:0k}"` format templates of `lonlat2osgrid`. -/
def padDigits : ℕ → ℕ → List Char
  | 0, _ => []
  | k + 1, n => digitChar (n / 10 ^ k) :: padDigits k (n % 10 ^ k)

/-- Matching of the anchored pattern `^([A-Z]{2})(payload)$` where the payload
is a digit run whose length belongs to `allowed`; returns the region code and
the digit characters. -/
def parseGridref (allowed : List ℕ) (u : List Char) : Option (String × List Char) :=
  let letters := u.take 2
  let digits := u.drop 2
  if letters.length = 2 && letters.all isUpperChar && digits.all isDigitChar
      && allowed.contains digits.length then
    some (String.mk letters, digits)
  else
    none

/-- The `factors` table of `lonlat2osgrid`: metres represented by one unit of
the last digit for each figure count. -/
def factorOf (figs : ℕ) : Option ℚ :=
  match figs with
  | 4 => some 1000
  | 6 => some 100
  | 8 => some 10
  | 10 => some 1
  | _ => none

/-- The cell size (in metres) implied by a figure count; equals the defined
value of `factorOf` and is the tolerance of the round-trip property. -/
def cellSize (figs : ℕ) : ℚ :=
  (factorOf figs).getD 0

/-- Embedding of `lonlat2osgrid` on the projected OSGB36 plane: the input is
the transformed `(x_coord, y_coord)` pair, and the external WGS84 to OSGB36
`pyproj` transform preceding this code is treated as exact.  Faithful to the
source: negative coordinates are rejected, the region is looked up by integer
division by 100000 (an index outside the table raises `BNGError`), and the
remaining offsets are floor-divided by the precision factor and zero-padded. -/
def lonlat2osgrid (x y : ℚ) (figs : ℕ) : Except BNGErr (List Char) :=
  if x < 0 ∨ y < 0 then .error .outOfRegion
  else
    match regionAt ⌊x / 100000⌋.toNat ⌊y / 100000⌋.toNat with
    | none => .error .outOfRegion
    | some region =>
      match offsetMap region with
      | none => .error .invalidSquare
      | some (xo, yo) =>
        match factorOf figs with
        | none => .error .invalidFigs
        | some factor =>
          let k := figs / 2
          .ok (region.toList
            ++ padDigits k (⌊(x - (xo : ℚ)) / factor⌋.toNat)
            ++ padDigits k (⌊(y - (yo : ℚ)) / factor⌋.toNat))

/-- Embedding of `osgrid2lonlat` with `epsg=None`: upper-case the reference,
match `^([A-Z]{2})(\d{4}|\d{6}|\d{8}|\d{10})$`, resolve the region offset and
scale the two digit halves by `10^(5 - len/2)`. -/
def osgrid2lonlat (s : List Char) : Except BNGErr (ℤ × ℤ) :=
  let u := s.map toUpperChar
  match parseGridref [4, 6, 8, 10] u with
  | none => .error .badInput
  | some (region, digits) =>
    match offsetMap region with
    | none => .error .invalidSquare
    | some (xo, yo) =>
      let k := digits.length / 2
      let scale : ℤ := 10 ^ (5 - k)
      .ok ((digitsVal (digits.take k) : ℤ) * scale + xo,
           (digitsVal (digits.drop k) : ℤ) * scale + yo)

/-- Bounding box returned by `osgrid2bbox`. -/
structure Bbox where
  xmin : ℤ
  xmax : ℤ
  ymin : ℤ
  ymax : ℤ
  deriving DecidableEq, Repr

/-- Embedding of `osgrid2bbox`.  For `'10km'` the payload pattern also admits
2-figure references, and the source then keeps only `coords[0:2]`, the first
two characters of the concatenated payload, splitting them into one easting
and one northing digit scaled by `10^4`.  For `'100km'` the pattern
`^([A-Z]{2})` is an unanchored prefix match. -/
def osgrid2bbox (s : List Char) (cellsizeArg : String) : Except BNGErr Bbox :=
  let u := s.map toUpperChar
  if cellsizeArg = "10km" then
    match parseGridref [2, 4, 6, 8, 10] u with
    | none => .error .badInput
    | some (region, digits) =>
      match offsetMap region with
      | none => .error .invalidSquare
      | some (xo, yo) =>
        let c2 := digits.take 2
        let k := c2.length / 2
        let scale : ℤ := 10 ^ (5 - k)
        let e := (digitsVal (c2.take k) : ℤ)
        let n := (digitsVal (c2.drop k) : ℤ)
        .ok ⟨e * scale + xo, e * scale + xo + 10000,
             n * scale + yo, n * scale + yo + 10000⟩
  else if cellsizeArg = "100km" then
    if (u.take 2).length = 2 && (u.take 2).all isUpperChar then
      match offsetMap (String.mk (u.take 2)) with
      | none => .error .invalidSquare
      | some (xo, yo) => .ok ⟨xo, xo + 100000, yo, yo + 100000⟩
    else .error .badInput
  else .error .invalidCellsize

/-! ### Facts about the region table and digit strings -/

/-- Finite verification that every cell `(i, j)` of the transposed region
table holds a two-letter uppercase code whose `_offset_map` entry is
`(100000*i, 100000*j)`. -/
def regionTableCheck : Bool :=
  (List.range 7).all fun i => (List.range 13).all fun j =>
    match regionAt i j with
    | some r => offsetMap r == some (100000 * (i : ℤ), 100000 * (j : ℤ))
        && r.toList.length == 2 && r.toList.all isUpperChar
    | none => false

set_option maxRecDepth 10000 in
theorem regionTableCheck_eq : regionTableCheck = true := by decide

theorem regionTable_spec {i j : ℕ} (hi : i < 7) (hj : j < 13) :
    ∃ r, regionAt i j = some r ∧
      offsetMap r = some (100000 * (i : ℤ), 100000 * (j : ℤ)) ∧
      r.toList.length = 2 ∧ r.toList.all isUpperChar = true := by
  have h := regionTableCheck_eq
  unfold regionTableCheck at h
  simp only [List.all_eq_true, List.mem_range] at h
  have h' := h i hi j hj
  cases hr : regionAt i j with
  | none => rw [hr] at h'; exact absurd h' (by simp)
  | some r =>
    rw [hr] at h'
    simp only [Bool.and_eq_true, beq_iff_eq] at h'
    exact ⟨r, rfl, h'.1.1, h'.1.2, h'.2⟩

/-- Finite verification that every key of `_offset_map` is a two-letter
uppercase code. -/
def offsetKeysCheck : Bool :=
  offsetEntries.all fun e => e.1.toList.length == 2 && e.1.toList.all isUpperChar

set_option maxRecDepth 10000 in
theorem offsetKeysCheck_eq : offsetKeysCheck = true := by decide

theorem offsetMap_key_shape {r : String} {off : ℤ × ℤ}
    (h : offsetMap r = some off) :
    r.toList.length = 2 ∧ r.toList.all isUpperChar = true := by
  unfold offsetMap at h
  cases hf : offsetEntries.find? fun e => e.1 == r with
  | none => rw [hf] at h; exact absurd h (by simp)
  | some e =>
    have hmem := List.mem_of_find?_eq_some hf
    have hpred := List.find?_some hf
    have hall := offsetKeysCheck_eq
    unfold offsetKeysCheck at hall
    rw [List.all_eq_true] at hall
    have he := hall e hmem
    simp only [Bool.and_eq_true, beq_iff_eq] at he hpred
    rw [← hpred]
    exact ⟨he.1, he.2⟩

theorem digitChar_val {d : ℕ} (hd : d < 10) : (digitChar d).toNat - 48 = d := by
  interval_cases d <;> decide

theorem digitChar_isDigit {d : ℕ} (hd : d < 10) : isDigitChar (digitChar d) = true := by
  interval_cases d <;> decide

theorem digitChar_toNat_lt {d : ℕ} (hd : d < 10) : (digitChar d).toNat < 97 := by
  interval_cases d <;> decide

theorem toUpperChar_of_lt {c : Char} (h : c.toNat < 97) : toUpperChar c = c := by
  unfold toUpperChar
  rw [if_neg]
  simp only [Bool.and_eq_true, decide_eq_true_eq, not_and]
  omega

theorem isUpperChar_toNat_lt {c : Char} (h : isUpperChar c = true) : c.toNat < 97 := by
  simp only [isUpperChar, Bool.and_eq_true, decide_eq_true_eq] at h
  omega

theorem isDigitChar_toNat_lt {c : Char} (h : isDigitChar c = true) : c.toNat < 97 := by
  simp only [isDigitChar, Bool.and_eq_true, decide_eq_true_eq] at h
  omega

theorem padDigits_length (k n : ℕ) : (padDigits k n).length = k := by
  induction k generalizing n with
  | zero => rfl
  | succ k ih => simp [padDigits, ih]

theorem padDigits_all_digit {k n : ℕ} (h : n < 10 ^ k) :
    (padDigits k n).all isDigitChar = true := by
  induction k generalizing n with
  | zero => rfl
  | succ k ih =>
    simp only [padDigits, List.all_cons, Bool.and_eq_true]
    constructor
    · exact digitChar_isDigit (Nat.div_lt_of_lt_mul (by rw [pow_succ] at h; exact h))
    · exact ih (Nat.mod_lt _ (Nat.pos_pow_of_pos k (by norm_num)))

/-- Value of `digitsVal` with an explicit accumulator. -/
theorem digitsVal_foldl (a : ℕ) (l : List Char) :
    l.foldl (fun a c => 10 * a + (c.toNat - 48)) a =
      a * 10 ^ l.length + digitsVal l := by
  induction l generalizing a with
  | nil => simp [digitsVal]
  | cons c cs ih =>
    simp only [List.foldl_cons, List.length_cons, digitsVal]
    rw [ih (10 * a + (c.toNat - 48)), ih (10 * 0 + (c.toNat - 48))]
    ring

theorem digitsVal_cons (c : Char) (cs : List Char) :
    digitsVal (c :: cs) = (c.toNat - 48) * 10 ^ cs.length + digitsVal cs := by
  unfold digitsVal
  rw [List.foldl_cons, digitsVal_foldl]
  simp [digitsVal]

theorem digitsVal_lt {l : List Char} (h : l.all isDigitChar = true) :
    digitsVal l < 10 ^ l.length := by
  induction l with
  | nil => simp [digitsVal]
  | cons c cs ih =>
    simp only [List.all_cons, Bool.and_eq_true] at h
    rw [digitsVal_cons]
    have hc : c.toNat - 48 ≤ 9 := by
      have := h.1
      simp only [isDigitChar, Bool.and_eq_true, decide_eq_true_eq] at this
      omega
    have hcs := ih h.2
    calc (c.toNat - 48) * 10 ^ cs.length + digitsVal cs
        < (c.toNat - 48) * 10 ^ cs.length + 10 ^ cs.length := by omega
      _ = ((c.toNat - 48) + 1) * 10 ^ cs.length := by ring
      _ ≤ 10 * 10 ^ cs.length := by
          apply Nat.mul_le_mul_right
          omega
      _ = 10 ^ (c :: cs).length := by rw [List.length_cons, pow_succ]; ring

theorem digitsVal_padDigits {k n : ℕ} (h : n < 10 ^ k) :
    digitsVal (padDigits k n) = n := by
  induction k generalizing n with
  | zero => simpa [padDigits, digitsVal] using (Nat.lt_one_iff.mp h).symm
  | succ k ih =>
    rw [padDigits, digitsVal_cons, padDigits_length,
      ih (Nat.mod_lt _ (Nat.pos_pow_of_pos k (by norm_num))),
      digitChar_val (Nat.div_lt_of_lt_mul (by rw [pow_succ] at h; exact h))]
    rw [Nat.mul_comm (n / 10 ^ k) (10 ^ k)]
    exact Nat.div_add_mod n (10 ^ k)

theorem padDigits_toUpper {k n : ℕ} (h : n < 10 ^ k) :
    (padDigits k n).map toUpperChar = padDigits k n := by
  induction k generalizing n with
  | zero => rfl
  | succ k ih =>
    simp only [padDigits, List.map_cons]
    rw [toUpperChar_of_lt
        (digitChar_toNat_lt (Nat.div_lt_of_lt_mul (by rw [pow_succ] at h; exact h))),
      ih (Nat.mod_lt _ (Nat.pos_pow_of_pos k (by norm_num)))]

theorem upper_toUpper {l : List Char} (h : l.all isUpperChar = true) :
    l.map toUpperChar = l := by
  induction l with
  | nil => rfl
  | cons c cs ih =>
    simp only [List.all_cons, Bool.and_eq_true] at h
    simp [toUpperChar_of_lt (isUpperChar_toNat_lt h.1), ih h.2]

theorem mk_toList (s : String) : String.mk s.toList = s := rfl

theorem digit_toUpper {l : List Char} (h : l.all isDigitChar = true) :
    l.map toUpperChar = l := by
  induction l with
  | nil => rfl
  | cons c cs ih =>
    simp only [List.all_cons, Bool.and_eq_true] at h
    simp [toUpperChar_of_lt (isDigitChar_toNat_lt h.1), ih h.2]

theorem all_take {l : List Char} {p : Char → Bool} (h : l.all p = true) (n : ℕ) :
    (l.take n).all p = true := by
  rw [List.all_eq_true] at h ⊢
  exact fun x hx => h x (List.take_subset n l hx)

theorem all_drop {l : List Char} {p : Char → Bool} (h : l.all p = true) (n : ℕ) :
    (l.drop n).all p = true := by
  rw [List.all_eq_true] at h ⊢
  exact fun x hx => h x (List.drop_subset n l hx)

/-- Matching behaviour of the regular-expression patterns on a well-formed
two-letter-plus-digits reference. -/
theorem parseGridref_append (allowed : List ℕ) (letters payload : List Char)
    (hl : letters.length = 2) (hu : letters.all isUpperChar = true)
    (hd : payload.all isDigitChar = true) :
    parseGridref allowed (letters ++ payload) =
      if allowed.contains payload.length then some (String.mk letters, payload)
      else none := by
  unfold parseGridref
  rw [List.take_left' hl, List.drop_left' hl]
  by_cases hc : allowed.contains payload.length
  · have hm : payload.length ∈ allowed := by simpa using hc
    rw [if_pos hc, if_pos (by simp [hl, hu, hd, hm])]
  · have hm : payload.length ∉ allowed := by simpa using hc
    rw [if_neg hc, if_neg (by simp [hl, hu, hd, hm])]

/-- A well-formed grid reference is unchanged by the `str.upper()` call. -/
theorem gridref_toUpper (letters payload : List Char)
    (hu : letters.all isUpperChar = true) (hd : payload.all isDigitChar = true) :
    (letters ++ payload).map toUpperChar = letters ++ payload := by
  rw [List.map_append, upper_toUpper hu, digit_toUpper hd]

/-- Core bound for one coordinate axis of the round trip: the digit count
reconstructed from the floor-divided offset is in range, and scaling it back
recovers the coordinate up to strictly less than one `factor` (floor
truncation, never rounding). -/
theorem axis_roundtrip (x : ℚ) (xo : ℤ) (k : ℕ) (factor : ℚ)
    (hfacmul : factor * 10 ^ k = 100000) (hfpos : 0 < factor)
    (hlo : (xo : ℚ) ≤ x) (hhi : x < xo + 100000) :
    ⌊(x - xo) / factor⌋.toNat < 10 ^ k ∧
    (⌊(x - xo) / factor⌋.toNat : ℚ) * factor + xo ≤ x ∧
    x < (⌊(x - xo) / factor⌋.toNat : ℚ) * factor + xo + factor := by
  have h0 : (0 : ℚ) ≤ (x - xo) / factor := div_nonneg (by linarith) hfpos.le
  have hfl : 0 ≤ ⌊(x - xo) / factor⌋ := Int.floor_nonneg.mpr h0
  have htn : ((⌊(x - xo) / factor⌋.toNat : ℤ)) = ⌊(x - xo) / factor⌋ :=
    Int.toNat_of_nonneg hfl
  have hkey : (100000 : ℚ) = 10 ^ k * factor := by rw [← hfacmul]; ring
  have hfloor_lt : ⌊(x - xo) / factor⌋ < (10 : ℤ) ^ k := by
    apply Int.floor_lt.mpr
    rw [div_lt_iff₀ hfpos]
    push_cast
    linarith
  refine ⟨?_, ?_, ?_⟩
  · have : ((⌊(x - xo) / factor⌋.toNat : ℤ)) < (10 : ℤ) ^ k := by rw [htn]; exact hfloor_lt
    exact_mod_cast this
  · have h1 : (⌊(x - xo) / factor⌋ : ℚ) * factor ≤ x - xo := by
      rw [← le_div_iff₀ hfpos]
      exact Int.floor_le _
    have hcast : ((⌊(x - xo) / factor⌋.toNat : ℚ)) = ((⌊(x - xo) / factor⌋ : ℤ) : ℚ) := by
      exact_mod_cast congrArg (fun z : ℤ => (z : ℚ)) htn
    rw [hcast]
    linarith
  · have h2 : x - xo < ((⌊(x - xo) / factor⌋ : ℚ) + 1) * factor := by
      rw [← div_lt_iff₀ hfpos]
      exact Int.lt_floor_add_one _
    have hcast : ((⌊(x - xo) / factor⌋.toNat : ℚ)) = ((⌊(x - xo) / factor⌋ : ℤ) : ℚ) := by
      exact_mod_cast congrArg (fun z : ℤ => (z : ℚ)) htn
    rw [hcast]
    linarith

theorem floor_idx_bounds (x : ℚ) (hx : 0 ≤ x) (hub : x < 700000) :
    ⌊x / 100000⌋.toNat < 7 ∧
    ((100000 * (⌊x / 100000⌋.toNat : ℤ) : ℤ) : ℚ) ≤ x ∧
    x < ((100000 * (⌊x / 100000⌋.toNat : ℤ) : ℤ) : ℚ) + 100000 := by
  have h0 : (0 : ℚ) ≤ x / 100000 := by positivity
  have hfl : 0 ≤ ⌊x / 100000⌋ := Int.floor_nonneg.mpr h0
  have htn : ((⌊x / 100000⌋.toNat : ℤ)) = ⌊x / 100000⌋ := Int.toNat_of_nonneg hfl
  have hlt : ⌊x / 100000⌋ < 7 := by
    apply Int.floor_lt.mpr
    rw [div_lt_iff₀ (by norm_num : (0 : ℚ) < 100000)]
    push_cast
    linarith
  have hle : (⌊x / 100000⌋ : ℚ) ≤ x / 100000 := Int.floor_le _
  have hgt : x / 100000 < (⌊x / 100000⌋ : ℚ) + 1 := Int.lt_floor_add_one _
  refine ⟨?_, ?_, ?_⟩
  · have : ((⌊x / 100000⌋.toNat : ℤ)) < 7 := by rw [htn]; exact hlt
    exact_mod_cast this
  · have : (⌊x / 100000⌋ : ℚ) * 100000 ≤ x := by
      rw [← le_div_iff₀ (by norm_num : (0 : ℚ) < 100000)]
      exact hle
    push_cast [htn]
    linarith
  · have : x < ((⌊x / 100000⌋ : ℚ) + 1) * 100000 := by
      rw [← div_lt_iff₀ (by norm_num : (0 : ℚ) < 100000)]
      exact hgt
    push_cast [htn]
    linarith

theorem floor_idy_bounds (y : ℚ) (hy : 0 ≤ y) (hub : y < 1300000) :
    ⌊y / 100000⌋.toNat < 13 ∧
    ((100000 * (⌊y / 100000⌋.toNat : ℤ) : ℤ) : ℚ) ≤ y ∧
    y < ((100000 * (⌊y / 100000⌋.toNat : ℤ) : ℤ) : ℚ) + 100000 := by
  have h0 : (0 : ℚ) ≤ y / 100000 := by positivity
  have hfl : 0 ≤ ⌊y / 100000⌋ := Int.floor_nonneg.mpr h0
  have htn : ((⌊y / 100000⌋.toNat : ℤ)) = ⌊y / 100000⌋ := Int.toNat_of_nonneg hfl
  have hlt : ⌊y / 100000⌋ < 13 := by
    apply Int.floor_lt.mpr
    rw [div_lt_iff₀ (by norm_num : (0 : ℚ) < 100000)]
    push_cast
    linarith
  have hle : (⌊y / 100000⌋ : ℚ) ≤ y / 100000 := Int.floor_le _
  have hgt : y / 100000 < (⌊y / 100000⌋ : ℚ) + 1 := Int.lt_floor_add_one _
  refine ⟨?_, ?_, ?_⟩
  · have : ((⌊y / 100000⌋.toNat : ℤ)) < 13 := by rw [htn]; exact hlt
    exact_mod_cast this
  · have : (⌊y / 100000⌋ : ℚ) * 100000 ≤ y := by
      rw [← le_div_iff₀ (by norm_num : (0 : ℚ) < 100000)]
      exact hle
    push_cast [htn]
    linarith
  · have : y < ((⌊y / 100000⌋ : ℚ) + 1) * 100000 := by
      rw [← div_lt_iff₀ (by norm_num : (0 : ℚ) < 100000)]
      exact hgt
    push_cast [htn]
    linarith

/-- Full round trip of the codec along both axes: parameterised over the
figure count, the half-figure count `k` and the precision factor. -/
theorem roundtrip_aux (x y : ℚ) (figs k : ℕ) (factor : ℚ)
    (hx : 0 ≤ x) (hy : 0 ≤ y) (hx7 : x < 700000) (hy13 : y < 1300000)
    (hk : figs / 2 = k)
    (hfac : factorOf figs = some factor)
    (hfacmul : factor * 10 ^ k = 100000)
    (hfpos : 0 < factor)
    (hscale : (((10 : ℤ) ^ (5 - k) : ℤ) : ℚ) = factor)
    (hallow : (k + k) ∈ ([4, 6, 8, 10] : List ℕ)) :
    ∃ gr xd yd, lonlat2osgrid x y figs = .ok gr ∧
      osgrid2lonlat gr = .ok (xd, yd) ∧
      (xd : ℚ) ≤ x ∧ x - xd < factor ∧ (yd : ℚ) ≤ y ∧ y - yd < factor := by
  obtain ⟨hi7, hxlo, hxhi⟩ := floor_idx_bounds x hx hx7
  obtain ⟨hj13, hylo, hyhi⟩ := floor_idy_bounds y hy hy13
  obtain ⟨r, hrat, hroff, hrlen, hrup⟩ := regionTable_spec hi7 hj13
  set i := ⌊x / 100000⌋.toNat with hidef
  set j := ⌊y / 100000⌋.toNat with hjdef
  set xo : ℤ := 100000 * (i : ℤ) with hxodef
  set yo : ℤ := 100000 * (j : ℤ) with hyodef
  have haxx := axis_roundtrip x xo k factor hfacmul hfpos hxlo (by linarith)
  have haxy := axis_roundtrip y yo k factor hfacmul hfpos hylo (by linarith)
  set e := ⌊(x - (xo : ℚ)) / factor⌋.toNat with hedef
  set n := ⌊(y - (yo : ℚ)) / factor⌋.toNat with hndef
  have hneg : ¬(x < 0 ∨ y < 0) := by push_neg; exact ⟨hx, hy⟩
  have henc : lonlat2osgrid x y figs =
      .ok (r.toList ++ padDigits k e ++ padDigits k n) := by
    unfold lonlat2osgrid
    rw [if_neg hneg, hrat]
    simp only [hroff, hfac, hk]
  have hde : (padDigits k e).all isDigitChar = true := padDigits_all_digit haxx.1
  have hdn : (padDigits k n).all isDigitChar = true := padDigits_all_digit haxy.1
  have hdall : (padDigits k e ++ padDigits k n).all isDigitChar = true := by
    rw [List.all_append, hde, hdn]; rfl
  have hplen : (padDigits k e ++ padDigits k n).length = k + k := by
    rw [List.length_append, padDigits_length, padDigits_length]
  have hcontains : ([4, 6, 8, 10] : List ℕ).contains (k + k) = true := by
    simpa using hallow
  have hkk2 : (k + k) / 2 = k := by omega
  have hdec : osgrid2lonlat (r.toList ++ padDigits k e ++ padDigits k n) =
      .ok ((e : ℤ) * 10 ^ (5 - k) + xo, (n : ℤ) * 10 ^ (5 - k) + yo) := by
    have hu : (r.toList ++ padDigits k e ++ padDigits k n).map toUpperChar
        = r.toList ++ (padDigits k e ++ padDigits k n) := by
      rw [List.append_assoc, gridref_toUpper _ _ hrup hdall]
    unfold osgrid2lonlat
    simp only [hu, parseGridref_append _ _ _ hrlen hrup hdall, hplen, hcontains,
      if_true, mk_toList, hroff, hkk2,
      List.take_left' (padDigits_length k e), List.drop_left' (padDigits_length k e),
      digitsVal_padDigits haxx.1, digitsVal_padDigits haxy.1]
  have hscaleq : ((10 : ℚ)) ^ (5 - k) = factor := by
    push_cast at hscale
    exact hscale
  refine ⟨r.toList ++ padDigits k e ++ padDigits k n,
    (e : ℤ) * 10 ^ (5 - k) + xo, (n : ℤ) * 10 ^ (5 - k) + yo, henc, hdec, ?_, ?_, ?_, ?_⟩
  · have h := haxx.2.1
    push_cast
    rw [hscaleq]
    linarith
  · have h := haxx.2.2
    push_cast
    rw [hscaleq]
    linarith
  · have h := haxy.2.1
    push_cast
    rw [hscaleq]
    linarith
  · have h := haxy.2.2
    push_cast
    rw [hscaleq]
    linarith

/-- C1:  For every projected coordinate inside the supported region table
and each of the four precisions `figs ∈ {4, 6, 8, 10}`, decoding the encoded
grid reference reproduces the original coordinate within the cell size
implied by that precision: the decoded south-west corner is at most one cell
below the input on each axis (strictly less than `cellSize figs` metres of
error, hence "at most 10 m" at 10 m precision).  The coordinate is expressed
in the projected OSGB36 frame; the external `pyproj` reprojection that the
source applies on either side is treated as exact. -/
theorem c1_encode_decode_roundtrip (x y : ℚ) (figs : ℕ)
    (hx : 0 ≤ x) (hy : 0 ≤ y) (hx7 : x < 700000) (hy13 : y < 1300000)
    (hf : figs = 4 ∨ figs = 6 ∨ figs = 8 ∨ figs = 10) :
    ∃ gr xd yd, lonlat2osgrid x y figs = .ok gr ∧
      osgrid2lonlat gr = .ok (xd, yd) ∧
      (xd : ℚ) ≤ x ∧ x - xd < cellSize figs ∧
      (yd : ℚ) ≤ y ∧ y - yd < cellSize figs := by
  rcases hf with hf | hf | hf | hf <;> subst hf
  · exact roundtrip_aux x y 4 2 1000 hx hy hx7 hy13 (by norm_num) rfl (by norm_num)
      (by norm_num) (by norm_num) (by norm_num)
  · exact roundtrip_aux x y 6 3 100 hx hy hx7 hy13 (by norm_num) rfl (by norm_num)
      (by norm_num) (by norm_num) (by norm_num)
  · exact roundtrip_aux x y 8 4 10 hx hy hx7 hy13 (by norm_num) rfl (by norm_num)
      (by norm_num) (by norm_num) (by norm_num)
  · exact roundtrip_aux x y 10 5 1 hx hy hx7 hy13 (by norm_num) rfl (by norm_num)
      (by norm_num) (by norm_num) (by norm_num)

/-- Witness for C1 at a concrete in-region coordinate and 8-figure (10 m)
precision. -/
theorem c1_encode_decode_roundtrip_witness :
    ∃ gr xd yd, lonlat2osgrid 327555 672957 8 = .ok gr ∧
      osgrid2lonlat gr = .ok (xd, yd) ∧
      (xd : ℚ) ≤ 327555 ∧ (327555 : ℚ) - xd < cellSize 8 ∧
      (yd : ℚ) ≤ 672957 ∧ (672957 : ℚ) - yd < cellSize 8 :=
  c1_encode_decode_roundtrip 327555 672957 8 (by norm_num) (by norm_num)
    (by norm_num) (by norm_num) (by norm_num)

theorem regionsT_length : regionsT.length = 7 := by decide

theorem regionsT_rows : regionsT.all (fun row => row.length == 13) = true := by decide

theorem regionAt_none {i j : ℕ} (h : 7 ≤ i ∨ 13 ≤ j) : regionAt i j = none := by
  unfold regionAt
  rcases h with h | h
  · rw [List.get?_eq_none.mpr (by rw [regionsT_length]; exact h)]
    rfl
  · cases hg : regionsT.get? i with
    | none => rfl
    | some row =>
      have hmem := List.get?_mem hg
      have hlen : row.length = 13 := by
        have hall := regionsT_rows
        rw [List.all_eq_true] at hall
        simpa using hall row hmem
      have hrow : row.get? j = none := List.get?_eq_none.mpr (le_trans (le_of_eq hlen) h)
      exact hrow

/-- C6:  Encoding a coordinate whose projected value has a negative
component, or whose 100 km indices `(floor(x/100000), floor(y/100000))` fall
outside the fixed 13-by-7 region table, raises the out-of-region `BNGError`;
the coordinate is never silently clamped into the table. -/
theorem c6_encode_out_of_region (x y : ℚ) (figs : ℕ)
    (h : x < 0 ∨ y < 0 ∨ 7 ≤ ⌊x / 100000⌋ ∨ 13 ≤ ⌊y / 100000⌋) :
    lonlat2osgrid x y figs = .error .outOfRegion := by
  by_cases hneg : x < 0 ∨ y < 0
  · unfold lonlat2osgrid
    rw [if_pos hneg]
  · have hidx : 7 ≤ ⌊x / 100000⌋.toNat ∨ 13 ≤ ⌊y / 100000⌋.toNat := by
      rcases h with h | h | h | h
      · exact absurd (Or.inl h) hneg
      · exact absurd (Or.inr h) hneg
      · left
        have h7 : (7 : ℤ).toNat ≤ ⌊x / 100000⌋.toNat := Int.toNat_le_toNat h
        simpa using h7
      · right
        have h13 : (13 : ℤ).toNat ≤ ⌊y / 100000⌋.toNat := Int.toNat_le_toNat h
        simpa using h13
    unfold lonlat2osgrid
    rw [if_neg hneg, regionAt_none hidx]

/-- Witness for C6 at a coordinate east of the table (x index 7). -/
theorem c6_encode_out_of_region_witness :
    lonlat2osgrid 712345 80000 4 = .error .outOfRegion :=
  c6_encode_out_of_region 712345 80000 4 (Or.inr (Or.inr (Or.inl (by
    rw [Int.le_floor]; norm_num))))

/-- C9:  The point decode accepts only payloads of length 4, 6, 8 or 10:
a 2-figure reference, a digit payload of any other length, and an unknown
region code each raise `BNGError`; the bounding-box path with cell size
`'10km'` additionally accepts 2-figure payloads, so every valid-region
2-figure reference is accepted by `osgrid2bbox` yet rejected by
`osgrid2lonlat`. -/
theorem c9_decode_bbox_asymmetry (region : String) (off : ℤ × ℤ)
    (hoff : offsetMap region = some off)
    (d1 d2 : Char) (h1 : isDigitChar d1 = true) (h2 : isDigitChar d2 = true)
    (payload : List Char) (hpd : payload.all isDigitChar = true)
    (hplen : payload.length ∉ ([4, 6, 8, 10] : List ℕ))
    (badR : String) (hblen : badR.toList.length = 2)
    (hbup : badR.toList.all isUpperChar = true)
    (hbnone : offsetMap badR = none)
    (payload4 : List Char) (hp4d : payload4.all isDigitChar = true)
    (hp4len : payload4.length ∈ ([4, 6, 8, 10] : List ℕ)) :
    (∃ b, osgrid2bbox (region.toList ++ [d1, d2]) "10km" = .ok b) ∧
    osgrid2lonlat (region.toList ++ [d1, d2]) = .error .badInput ∧
    osgrid2lonlat (region.toList ++ payload) = .error .badInput ∧
    osgrid2lonlat (badR.toList ++ payload4) = .error .invalidSquare := by
  obtain ⟨hrlen, hrup⟩ := offsetMap_key_shape hoff
  have hdd : ([d1, d2] : List Char).all isDigitChar = true := by simp [h1, h2]
  refine ⟨?_, ?_, ?_, ?_⟩
  · unfold osgrid2bbox
    rw [if_pos rfl, gridref_toUpper _ _ hrup hdd,
      parseGridref_append _ _ _ hrlen hrup hdd]
    simp only [List.length_cons, List.length_nil]
    rw [if_pos (by decide)]
    simp only [mk_toList, hoff]
    exact ⟨_, rfl⟩
  · unfold osgrid2lonlat
    rw [gridref_toUpper _ _ hrup hdd]
    dsimp only
    rw [parseGridref_append _ _ _ hrlen hrup hdd]
    simp only [List.length_cons, List.length_nil]
    rw [if_neg (by decide)]
  · unfold osgrid2lonlat
    rw [gridref_toUpper _ _ hrup hpd]
    dsimp only
    rw [parseGridref_append _ _ _ hrlen hrup hpd, if_neg (by simpa using hplen)]
  · unfold osgrid2lonlat
    rw [gridref_toUpper _ _ hbup hp4d]
    dsimp only
    rw [parseGridref_append _ _ _ hblen hbup hp4d, if_pos (by simpa using hp4len)]
    simp only [mk_toList, hbnone]

/-- Witness for C9: region `NT` with the 2-figure payload `27`, the 3-digit
payload `123` and the unknown region code `AA` with payload `1234`. -/
theorem c9_decode_bbox_asymmetry_witness :
    (∃ b, osgrid2bbox ("NT".toList ++ ['2', '7']) "10km" = .ok b) ∧
    osgrid2lonlat ("NT".toList ++ ['2', '7']) = .error .badInput ∧
    osgrid2lonlat ("NT".toList ++ ['1', '2', '3']) = .error .badInput ∧
    osgrid2lonlat ("AA".toList ++ ['1', '2', '3', '4']) = .error .invalidSquare :=
  c9_decode_bbox_asymmetry "NT" (300000, 600000) (by decide)
    '2' '7' (by decide) (by decide)
    ['1', '2', '3'] (by decide) (by decide)
    "AA" (by decide) (by decide) (by decide)
    ['1', '2', '3', '4'] (by decide) (by decide)

/-- C5 counterexample:  The claim asserts that `osgrid2bbox` parses the
reference the same way as `osgrid2lonlat`, so the decoded point would lie in
the returned 10 km box.  For `TV374354` the decode yields `(537400, 35400)`
while the bounding box derives its northing digit from the second character
of the concatenated payload (`7`, an easting digit) instead of the leading
northing digit (`3`), returning `ymin = 70000`: the decoded point lies
outside the box on the `y` axis. -/
theorem c5_counterexample :
    osgrid2lonlat ['T', 'V', '3', '7', '4', '3', '5', '4'] = .ok (537400, 35400) ∧
    osgrid2bbox ['T', 'V', '3', '7', '4', '3', '5', '4'] "10km" =
      .ok ⟨530000, 540000, 70000, 80000⟩ ∧
    ¬((70000 : ℤ) ≤ 35400 ∧ (35400 : ℤ) < 80000) := by
  refine ⟨rfl, rfl, by decide⟩

/-- Bound relating a number to its leading decimal digit. -/
theorem leading_digit_bound (v0 w m : ℕ) (hw : w < 10 ^ m) (hm : m ≤ 4) :
    v0 * 10 ^ 4 ≤ (v0 * 10 ^ m + w) * 10 ^ (4 - m) ∧
    (v0 * 10 ^ m + w) * 10 ^ (4 - m) < v0 * 10 ^ 4 + 10 ^ 4 := by
  have h4 : 10 ^ m * 10 ^ (4 - m) = 10 ^ 4 := by
    rw [← pow_add]
    congr 1
    omega
  have hexp : (v0 * 10 ^ m + w) * 10 ^ (4 - m) = v0 * 10 ^ 4 + w * 10 ^ (4 - m) := by
    rw [← h4]
    ring
  have hpos : 0 < 10 ^ (4 - m) := Nat.pos_pow_of_pos _ (by norm_num)
  have hlt : w * 10 ^ (4 - m) < 10 ^ 4 := by
    rw [← h4]
    exact (Nat.mul_lt_mul_right hpos).mpr hw
  omega

/-- C5 amended:  `osgrid2bbox` with cell size `'10km'` parses the same
region code and digit payload as `osgrid2lonlat`, but derives the 10 km cell
from the first two characters of the concatenated payload rather than from
the leading digit of each payload half.  Since the payload's first character
is the leading easting digit, the decoded point always lies inside the box on
the `x` axis; the `y` containment can fail (see the counterexample), because
the box's northing digit is the payload's second character, which for 4-to-10
figure references is another easting digit. -/
theorem c5_amended_bbox_x_containment (region : String) (off : ℤ × ℤ)
    (hoff : offsetMap region = some off)
    (digits : List Char) (hd : digits.all isDigitChar = true)
    (hlen : digits.length = 4 ∨ digits.length = 6 ∨ digits.length = 8 ∨
      digits.length = 10) :
    ∃ xd yd b, osgrid2lonlat (region.toList ++ digits) = .ok (xd, yd) ∧
      osgrid2bbox (region.toList ++ digits) "10km" = .ok b ∧
      b.xmin ≤ xd ∧ xd < b.xmax := by
  obtain ⟨hrlen, hrup⟩ := offsetMap_key_shape hoff
  obtain ⟨xo, yo⟩ := off
  have hpos : 0 < digits.length := by rcases hlen with h | h | h | h <;> omega
  obtain ⟨c0, rest, rfl⟩ : ∃ c0 rest, digits = c0 :: rest := by
    cases digits with
    | nil => simp at hpos
    | cons a l => exact ⟨a, l, rfl⟩
  set digits := c0 :: rest with hdigits
  have hmem4 : digits.length ∈ ([4, 6, 8, 10] : List ℕ) := by
    rcases hlen with h | h | h | h <;> simp [h]
  have hmem2 : digits.length ∈ ([2, 4, 6, 8, 10] : List ℕ) := by
    rcases hlen with h | h | h | h <;> simp [h]
  -- decompose the half-length
  set k := digits.length / 2 with hkdef
  obtain ⟨m, hm⟩ : ∃ m, k = m + 1 := by
    rcases hlen with h | h | h | h <;> exact ⟨digits.length / 2 - 1, by omega⟩
  have hm4 : m ≤ 4 := by rcases hlen with h | h | h | h <;> omega
  have hrestlen : m ≤ rest.length := by
    have : digits.length = rest.length + 1 := by simp [hdigits]
    omega
  -- decode
  have hcont4 : ([4, 6, 8, 10] : List ℕ).contains digits.length = true := by
    simpa using hmem4
  have hcont2 : ([2, 4, 6, 8, 10] : List ℕ).contains digits.length = true := by
    simpa using hmem2
  have hdec : osgrid2lonlat (region.toList ++ digits) =
      .ok ((digitsVal (digits.take k) : ℤ) * 10 ^ (5 - k) + xo,
           (digitsVal (digits.drop k) : ℤ) * 10 ^ (5 - k) + yo) := by
    unfold osgrid2lonlat
    simp only [gridref_toUpper _ _ hrup hd, parseGridref_append _ _ _ hrlen hrup hd,
      hcont4, if_true, mk_toList, hoff]
  -- bounding box
  have htake2 : digits.take 2 = c0 :: rest.take 1 := by simp [hdigits]
  have hlen2 : (digits.take 2).length = 2 := by
    rw [List.length_take]
    rcases hlen with h | h | h | h <;> omega
  have hbbox : osgrid2bbox (region.toList ++ digits) "10km" =
      .ok ⟨(digitsVal ((digits.take 2).take 1) : ℤ) * 10 ^ 4 + xo,
           (digitsVal ((digits.take 2).take 1) : ℤ) * 10 ^ 4 + xo + 10000,
           (digitsVal ((digits.take 2).drop 1) : ℤ) * 10 ^ 4 + yo,
           (digitsVal ((digits.take 2).drop 1) : ℤ) * 10 ^ 4 + yo + 10000⟩ := by
    unfold osgrid2bbox
    rw [if_pos rfl]
    simp only [gridref_toUpper _ _ hrup hd, parseGridref_append _ _ _ hrlen hrup hd,
      hcont2, if_true, mk_toList, hoff, hlen2]
  -- arithmetic relating the two
  have htk : digits.take k = c0 :: rest.take m := by
    rw [hm, hdigits, List.take_succ_cons]
  have htk1 : (digits.take 2).take 1 = [c0] := by rw [htake2]; rfl
  have hrestd : rest.all isDigitChar = true := by
    rw [List.all_eq_true]
    intro x hx
    rw [List.all_eq_true] at hd
    exact hd x (by simp [hdigits, hx])
  have hw : digitsVal (rest.take m) < 10 ^ m := by
    have h := digitsVal_lt (all_take hrestd m)
    rwa [List.length_take, Nat.min_eq_left hrestlen] at h
  have hE : digitsVal (digits.take k) =
      (c0.toNat - 48) * 10 ^ m + digitsVal (rest.take m) := by
    rw [htk, digitsVal_cons, List.length_take, Nat.min_eq_left hrestlen]
  have hv0 : digitsVal [c0] = c0.toNat - 48 := by
    simp [digitsVal]
  have h5k : 5 - k = 4 - m := by omega
  obtain ⟨hlow, hhigh⟩ := leading_digit_bound (c0.toNat - 48) (digitsVal (rest.take m)) m hw hm4
  refine ⟨_, _, _, hdec, hbbox, ?_, ?_⟩
  · show (digitsVal ((digits.take 2).take 1) : ℤ) * 10 ^ 4 + xo ≤
      (digitsVal (digits.take k) : ℤ) * 10 ^ (5 - k) + xo
    rw [htk1, hv0, hE, h5k]
    have hlowZ : ((c0.toNat - 48 : ℕ) : ℤ) * (10 : ℤ) ^ 4 ≤
        (((c0.toNat - 48) * 10 ^ m + digitsVal (rest.take m) : ℕ) : ℤ) *
          (10 : ℤ) ^ (4 - m) := by
      exact_mod_cast hlow
    linarith
  · show (digitsVal (digits.take k) : ℤ) * 10 ^ (5 - k) + xo <
      (digitsVal ((digits.take 2).take 1) : ℤ) * 10 ^ 4 + xo + 10000
    rw [htk1, hv0, hE, h5k]
    have hhighZ : (((c0.toNat - 48) * 10 ^ m + digitsVal (rest.take m) : ℕ) : ℤ) *
        (10 : ℤ) ^ (4 - m) <
        ((c0.toNat - 48 : ℕ) : ℤ) * (10 : ℤ) ^ 4 + (10 : ℤ) ^ 4 := by
      exact_mod_cast hhigh
    have h10 : (10000 : ℤ) = (10 : ℤ) ^ 4 := by norm_num
    rw [h10]
    linarith

/-- Witness for the amended C5 at the counterexample reference `TV374354`. -/
theorem c5_amended_bbox_x_containment_witness :
    ∃ xd yd b, osgrid2lonlat ("TV".toList ++ ['3', '7', '4', '3', '5', '4']) = .ok (xd, yd) ∧
      osgrid2bbox ("TV".toList ++ ['3', '7', '4', '3', '5', '4']) "10km" = .ok b ∧
      b.xmin ≤ xd ∧ xd < b.xmax :=
  c5_amended_bbox_x_containment "TV" (500000, 0) (by decide)
    ['3', '7', '4', '3', '5', '4'] (by decide) (by decide)

/-! ### Calendar normalisation (`calc_doy` in `ukwofost/utils.py` and the
gap-fill loop of `NetCDFWeatherDataProvider._get_and_process_chessscape`) -/

/-- Gregorian leap-year test, as in Python's `calendar`/`datetime`
(`%` is Euclidean remainder, matching Python's `%` on these operands). -/
def isLeap (y : ℤ) : Bool :=
  (y % 4 == 0 && y % 100 != 0) || y % 400 == 0

/-- Month lengths of a year with the given leapness. -/
def monthLengths (leap : Bool) : List ℕ :=
  [31, if leap then 29 else 28, 31, 30, 31, 30, 31, 31, 30, 31, 30, 31]

/-- Month lengths of year 1, which is not a leap year. -/
def monthsNonLeap : List ℕ :=
  monthLengths false

/-- Walk the month-length table converting a day-of-year to (month, day). -/
def mdGo : ℕ → ℕ → List ℕ → ℕ × ℕ
  | m, d, [] => (m, d)
  | m, d, len :: rest => if d ≤ len then (m, d) else mdGo (m + 1) (d - len) rest

/-- The (month, day) pair with day-of-year `doy` in a NON-leap year: this is
what `date.fromordinal(doy)` produces for `1 ≤ doy ≤ 365`, because ordinal
day `doy` falls in year 1, which is not a leap year. -/
def mdOf (doy : ℕ) : ℕ × ℕ :=
  mdGo 1 doy monthsNonLeap

/-- Embedding of `calc_doy(cftime_day)`: `date.fromordinal(cftime_day.dayofyr)`
resolves the day-of-year through the month lengths of year 1 (non-leap), then
`.replace(year=cftime_day.year)` re-labels the year, raising `ValueError`
(modelled as `none`) if the (month, day) pair is invalid in the target year.
The model covers the domain `dayofyr ≤ 365` in which `fromordinal` stays
inside year 1; the 360-day source calendar only produces `dayofyr ≤ 360`. -/
def calc_doy (year : ℤ) (dayofyr : ℕ) : Option (ℤ × ℕ × ℕ) :=
  if 1 ≤ dayofyr ∧ dayofyr ≤ 365 then
    let md := mdOf dayofyr
    if md.2 ≤ (monthLengths (isLeap year)).getD (md.1 - 1) 0 then
      some (year, md.1, md.2)
    else none
  else none

/-- Number of leap years strictly before year `y` in the proleptic Gregorian
calendar; `/` on `ℤ` is Euclidean division, which agrees with Python's floor
division `//` for these positive divisors. -/
def leapsBefore (y : ℤ) : ℤ :=
  (y - 1) / 4 - (y - 1) / 100 + (y - 1) / 400

/-- Day-of-year of `(m, d)` in a year of the given leapness. -/
def doyInYearB (leap : Bool) (m d : ℕ) : ℕ :=
  ((monthLengths leap).take (m - 1)).sum + d

/-- Proleptic-Gregorian ordinal of a date, as in Python's
`datetime.date.toordinal` (ordinal 1 is 0001-01-01). -/
def toOrdinal (y : ℤ) (m d : ℕ) : ℤ :=
  365 * (y - 1) + leapsBefore y + (doyInYearB (isLeap y) m d : ℤ)

/-- Ordinal of the Gregorian date produced by `calc_doy` for a source
(360-day-calendar) day: the pipeline converts `DAY` entries with `calc_doy`
and then manipulates them as dates, i.e. as ordinals. -/
def ordOfCf (year : ℤ) (dayofyr : ℕ) : ℤ :=
  toOrdinal year (mdOf dayofyr).1 (mdOf dayofyr).2

/-- Embedding of `nearest(item, valuelist)`: `min(valuelist, key=...)` keeps
the first element attaining the minimal absolute difference.  Python raises
on an empty list; the pipeline only calls it with a non-empty index, and the
model returns `item` itself in that unreachable case. -/
def nearestDate (item : ℤ) : List ℤ → ℤ
  | [] => item
  | v :: vs => vs.foldl (fun best x => if |x - item| < |best - item| then x else best) v

/-- Row lookup `df.loc[d]`; the gap-fill loop only looks up dates present in
the frame. -/
def valueAt {α : Type} [Inhabited α] (df : List (ℤ × α)) (d : ℤ) : α :=
  match df.find? fun p => p.1 == d with
  | some p => p.2
  | none => default

/-- One iteration of the gap-fill loop: look up the row of the nearest date
present in the CURRENT frame (converted rows plus the days already filled)
and append it relabelled with the missing day. -/
def gapFillStep {α : Type} [Inhabited α] (df : List (ℤ × α)) (day : ℤ) : List (ℤ × α) :=
  df ++ [(day, valueAt df (nearestDate day (df.map Prod.fst)))]

/-- The whole gap-fill loop over the missing days in the given order. -/
def gapFill {α : Type} [Inhabited α] (df : List (ℤ × α)) (missing : List ℤ) : List (ℤ × α) :=
  missing.foldl gapFillStep df

/-- The inclusive day range `pd.date_range(a, b, freq="D")` as ordinals. -/
def dateRange (a b : ℤ) : List ℤ :=
  (List.range (b + 1 - a).toNat).map fun i : ℕ => a + (i : ℤ)

/-- Ordering of frame rows by date, used to embed `sort_index`. -/
def byDate {α : Type} (p q : ℤ × α) : Prop :=
  p.1 ≤ q.1

instance {α : Type} : DecidableRel (byDate (α := α)) :=
  fun p q => inferInstanceAs (Decidable (p.1 ≤ q.1))

instance {α : Type} : IsTotal (ℤ × α) byDate :=
  ⟨fun a b => le_total a.1 b.1⟩

instance {α : Type} : IsTrans (ℤ × α) byDate :=
  ⟨fun _ _ _ h1 h2 => le_trans h1 h2⟩

/-- `sort_index(ascending=True)`: sort the frame by date. -/
def sortByDate {α : Type} (df : List (ℤ × α)) : List (ℤ × α) :=
  List.insertionSort byDate df

/-- The date conversion step `os_dataframe["DAY"] = [calc_doy(x) for x in ...]`
followed by `set_index`, with dates as ordinals. -/
def convertRowsCS {α : Type} (input : List ((ℤ × ℕ) × α)) : List (ℤ × α) :=
  input.map fun p => (ordOfCf p.1.1 p.1.2, p.2)

/-- The canonical (ascending) listing of
`set(date_rng).difference(os_dataframe.index)`.  Python's `list(set(...))`
iteration order is unspecified, so the pipeline below is additionally
parameterised by an arbitrary permutation of this list. -/
def missingOf {α : Type} (conv : List (ℤ × α)) : List ℤ :=
  (dateRange ((conv.map Prod.fst).headI) ((conv.map Prod.fst).getLastI)).filter
    fun d => !(conv.map Prod.fst).contains d

/-- The calendar-normalisation pipeline of `_get_and_process_chessscape`:
convert the 360-day `DAY` indices to Gregorian dates, append a
nearest-neighbour copy for every date of the full range that is absent
(processing the missing days in the order `order`), and sort by date. -/
def processCS {α : Type} [Inhabited α] (input : List ((ℤ × ℕ) × α))
    (order : List ℤ) : List (ℤ × α) :=
  sortByDate (gapFill (convertRowsCS input) order)

/-! ### Facts about the calendar conversion -/

/-- Finite verification of the day-of-year facts for every source day index
`1..365`: the non-leap day-of-year of `mdOf d` is `d` itself, the leap-year
day-of-year is `d` shifted by one from 1 March on, the day is valid in a
non-leap month, the result is never 29 February, and the month is in
range. -/
def doyCheck : Bool :=
  (List.range 365).all fun i =>
    doyInYearB false (mdOf (i + 1)).1 (mdOf (i + 1)).2 == i + 1 &&
    doyInYearB true (mdOf (i + 1)).1 (mdOf (i + 1)).2 ==
      (i + 1) + (if 60 ≤ i + 1 then 1 else 0) &&
    decide ((mdOf (i + 1)).2 ≤ (monthLengths false).getD ((mdOf (i + 1)).1 - 1) 0) &&
    !((mdOf (i + 1)).1 == 2 && (mdOf (i + 1)).2 == 29) &&
    decide (1 ≤ (mdOf (i + 1)).1 ∧ (mdOf (i + 1)).1 ≤ 12)

set_option maxRecDepth 40000 in
theorem doyCheck_eq : doyCheck = true := by decide

theorem mdOf_spec {d : ℕ} (h1 : 1 ≤ d) (h2 : d ≤ 365) :
    doyInYearB false (mdOf d).1 (mdOf d).2 = d ∧
    doyInYearB true (mdOf d).1 (mdOf d).2 = d + (if 60 ≤ d then 1 else 0) ∧
    (mdOf d).2 ≤ (monthLengths false).getD ((mdOf d).1 - 1) 0 ∧
    ¬((mdOf d).1 = 2 ∧ (mdOf d).2 = 29) ∧
    1 ≤ (mdOf d).1 ∧ (mdOf d).1 ≤ 12 := by
  have h := doyCheck_eq
  unfold doyCheck at h
  rw [List.all_eq_true] at h
  have h' := h (d - 1) (by rw [List.mem_range]; omega)
  have hd : d - 1 + 1 = d := by omega
  rw [hd] at h'
  simp only [Bool.and_eq_true, beq_iff_eq, decide_eq_true_eq, Bool.not_eq_true',
    Bool.and_eq_false_iff, beq_eq_false_iff_ne, ne_eq] at h'
  refine ⟨h'.1.1.1.1, h'.1.1.1.2, h'.1.1.2, ?_, h'.2⟩
  rcases h'.1.2 with h | h
  · exact fun hc => h hc.1
  · exact fun hc => h hc.2

theorem monthLen_mono {m : ℕ} (h1 : 1 ≤ m) (h12 : m ≤ 12) (leap : Bool) :
    (monthLengths false).getD (m - 1) 0 ≤ (monthLengths leap).getD (m - 1) 0 := by
  cases leap
  · exact le_refl _
  · interval_cases m <;> decide

/-- For every day index of the 360-day calendar, `calc_doy` succeeds and
returns the target year with the non-leap (month, day) resolution. -/
theorem calc_doy_eq {y : ℤ} {d : ℕ} (h1 : 1 ≤ d) (h2 : d ≤ 360) :
    calc_doy y d = some (y, (mdOf d).1, (mdOf d).2) := by
  obtain ⟨_, _, hvalid, _, hm1, hm12⟩ := mdOf_spec h1 (by omega)
  unfold calc_doy
  rw [if_pos ⟨h1, by omega⟩, if_pos (le_trans hvalid (monthLen_mono hm1 hm12 _))]

/-- C10:  For every source day index in `1..360` and every target year,
`calc_doy` resolves the day-of-year through the month lengths of a non-leap
year (the ordinals of year 1) before substituting the target year, so it
never raises on the year substitution (it returns `some`), never returns
29 February, and — in a leap target year — the converted date (as an
ordinal) never equals the ordinal of 29 February of that year, which can
therefore only enter the normalised series through the nearest-neighbour
gap-fill. -/
theorem c10_calc_doy_nonleap (y : ℤ) (d : ℕ) (h1 : 1 ≤ d) (h2 : d ≤ 360) :
    calc_doy y d = some (y, (mdOf d).1, (mdOf d).2) ∧
    ¬((mdOf d).1 = 2 ∧ (mdOf d).2 = 29) ∧
    (isLeap y = true → ordOfCf y d ≠ toOrdinal y 2 29) := by
  obtain ⟨hF1, hF2, hvalid, hfeb, hm1, hm12⟩ := mdOf_spec h1 (by omega)
  refine ⟨calc_doy_eq h1 h2, hfeb, ?_⟩
  intro hleap heq
  unfold ordOfCf toOrdinal at heq
  rw [hleap, hF2] at heq
  have h229 : doyInYearB true 2 29 = 60 := by decide
  rw [h229] at heq
  have : d + (if 60 ≤ d then 1 else 0) = 60 := by exact_mod_cast by omega
  split_ifs at this <;> omega

/-- Witness for C10 at the leap year 2020 and source day 60 (which maps to
1 March, not 29 February). -/
theorem c10_calc_doy_nonleap_witness :
    calc_doy 2020 60 = some (2020, (mdOf 60).1, (mdOf 60).2) ∧
    ¬((mdOf 60).1 = 2 ∧ (mdOf 60).2 = 29) ∧
    (isLeap 2020 = true → ordOfCf 2020 60 ≠ toOrdinal 2020 2 29) :=
  c10_calc_doy_nonleap 2020 60 (by norm_num) (by norm_num)

theorem leapsBefore_mono {y y' : ℤ} (h : y ≤ y') : leapsBefore y ≤ leapsBefore y' := by
  have key : ∀ n : ℕ, leapsBefore y ≤ leapsBefore (y + n) := by
    intro n
    induction n with
    | zero => simp
    | succ k ih =>
      refine le_trans ih ?_
      have hstep : (y + (k + 1 : ℕ) : ℤ) = (y + (k : ℕ)) + 1 := by push_cast; ring
      rw [hstep]
      unfold leapsBefore
      omega
  have hn : y' = y + (((y' - y).toNat : ℕ) : ℤ) := by omega
  rw [hn]
  exact key _

theorem doyB_val {y : ℤ} {d : ℕ} (h1 : 1 ≤ d) (h2 : d ≤ 360) :
    doyInYearB (isLeap y) (mdOf d).1 (mdOf d).2 =
      if isLeap y then d + (if 60 ≤ d then 1 else 0) else d := by
  obtain ⟨hF1, hF2, _, _, _⟩ := mdOf_spec h1 (by omega)
  cases h : isLeap y <;> simp [hF1, hF2]

/-- The date conversion is strictly monotone in the lexicographic
(source year, source day-of-year) order, regardless of leap years. -/
theorem ordOfCf_lt {y y' : ℤ} {d d' : ℕ}
    (hd1 : 1 ≤ d) (hd2 : d ≤ 360) (he1 : 1 ≤ d') (he2 : d' ≤ 360)
    (h : y < y' ∨ (y = y' ∧ d < d')) :
    ordOfCf y d < ordOfCf y' d' := by
  have hv := doyB_val (y := y) hd1 hd2
  have hv' := doyB_val (y := y') he1 he2
  unfold ordOfCf toOrdinal
  rw [hv, hv']
  rcases h with h | ⟨rfl, hdd⟩
  · have hlm := leapsBefore_mono h.le
    split_ifs <;> push_cast <;> omega
  · split_ifs <;> push_cast <;> omega

/-- The gap-fill loop appends exactly one row per processed missing day, so
the dates of the resulting (unsorted) frame are the converted dates followed
by the processed days in order. -/
theorem gapFill_map_fst {α : Type} [Inhabited α] (order : List ℤ) (df : List (ℤ × α)) :
    (gapFill df order).map Prod.fst = df.map Prod.fst ++ order := by
  induction order generalizing df with
  | nil => simp [gapFill]
  | cons o os ih =>
    show (gapFill (gapFillStep df o) os).map Prod.fst = _
    rw [ih]
    simp [gapFillStep]

theorem mem_dateRange {a b x : ℤ} : x ∈ dateRange a b ↔ a ≤ x ∧ x ≤ b := by
  unfold dateRange
  constructor
  · intro hx
    obtain ⟨i, hi, rfl⟩ := List.mem_map.mp hx
    rw [List.mem_range] at hi
    omega
  · rintro ⟨h1, h2⟩
    refine List.mem_map.mpr ⟨(x - a).toNat, ?_, by omega⟩
    rw [List.mem_range]
    omega

theorem dateRange_pairwise (a b : ℤ) : (dateRange a b).Pairwise (· < ·) := by
  unfold dateRange
  exact (List.pairwise_lt_range _).map _ fun i j h => by omega

theorem headI_le_of_sorted {l : List ℤ} (hs : l.Pairwise (· < ·)) :
    ∀ x ∈ l, l.headI ≤ x := by
  cases l with
  | nil => intro x hx; simp at hx
  | cons a t =>
    intro x hx
    rcases List.mem_cons.mp hx with rfl | hx
    · exact le_refl _
    · exact le_of_lt ((List.pairwise_cons.mp hs).1 x hx)

theorem le_getLastI_of_sorted {l : List ℤ} (hs : l.Pairwise (· < ·)) :
    ∀ x ∈ l, x ≤ l.getLastI := by
  induction l with
  | nil => intro x hx; simp at hx
  | cons a t ih =>
    intro x hx
    cases t with
    | nil =>
      rcases List.mem_cons.mp hx with rfl | hx
      · exact le_refl _
      · simp at hx
    | cons b t' =>
      have htail := (List.pairwise_cons.mp hs).2
      have hlast : (a :: b :: t').getLastI = (b :: t').getLastI := by
        rw [List.getLastI_eq_getLast?, List.getLastI_eq_getLast?]
        rfl
      rw [hlast]
      rcases List.mem_cons.mp hx with rfl | hx
      · have hb := (List.pairwise_cons.mp hs).1 b (by simp)
        refine le_trans hb.le (ih htail b (by simp))
      · exact ih htail x hx

/-- Lexicographic order on (source year, source day-of-year): the order in
which a netCDF time coordinate delivers the 360-day-calendar days. -/
def cfLt (a b : ℤ × ℕ) : Prop :=
  a.1 < b.1 ∨ (a.1 = b.1 ∧ a.2 < b.2)

instance : DecidableRel cfLt :=
  fun a b => decidable_of_iff (a.1 < b.1 ∨ (a.1 = b.1 ∧ a.2 < b.2)) Iff.rfl

/-- C3:  For every chronologically ordered input sequence of
(360-day-calendar day, value-row) pairs and every processing order of the
missing days (Python's `set` iteration order is unspecified), the calendar
normalisation produces exactly one row per Gregorian date from the first to
the last converted date, sorted ascending, with zero gaps and zero duplicate
dates, regardless of whether the spanned years contain leap days: the date
column of the result is exactly the contiguous ordinal range. -/
theorem c3_normalized_series_exact_range {α : Type} [Inhabited α]
    (input : List ((ℤ × ℕ) × α)) (order : List ℤ)
    (hne : input ≠ [])
    (hd : ∀ p ∈ input, 1 ≤ p.1.2 ∧ p.1.2 ≤ 360)
    (hmono : (input.map Prod.fst).Pairwise cfLt)
    (horder : List.Perm order (missingOf (convertRowsCS input))) :
    (processCS input order).map Prod.fst =
      dateRange (((convertRowsCS input).map Prod.fst).headI)
        (((convertRowsCS input).map Prod.fst).getLastI) := by
  haveI : IsAntisymm ℤ (· ≤ ·) := ⟨fun _ _ h1 h2 => le_antisymm h1 h2⟩
  set conv := convertRowsCS input with hconv
  set ds := conv.map Prod.fst with hds
  have hds_eq : ds = input.map fun p => ordOfCf p.1.1 p.1.2 := by
    rw [hds, hconv]
    unfold convertRowsCS
    rw [List.map_map]
    rfl
  have hsorted : ds.Pairwise (· < ·) := by
    rw [hds_eq, List.pairwise_map]
    have h1 : input.Pairwise fun p q => cfLt p.1 q.1 := List.pairwise_map.mp hmono
    refine h1.imp_of_mem ?_
    intro p q hp hq hr
    exact ordOfCf_lt (hd p hp).1 (hd p hp).2 (hd q hq).1 (hd q hq).2 hr
  have hnodup : ds.Nodup := hsorted.imp ne_of_lt
  set a := ds.headI with ha
  set b := ds.getLastI with hb
  have hsubset : ∀ x ∈ ds, x ∈ dateRange a b := fun x hx =>
    mem_dateRange.mpr ⟨headI_le_of_sorted hsorted x hx, le_getLastI_of_sorted hsorted x hx⟩
  have hfilter_perm :
      List.Perm ((dateRange a b).filter fun d => ds.contains d) ds := by
    refine (List.perm_ext_iff_of_nodup
      (((dateRange_pairwise a b).imp ne_of_lt).filter _) hnodup).mpr ?_
    intro x
    rw [List.mem_filter]
    constructor
    · rintro ⟨_, hc⟩
      simpa using hc
    · intro hx
      exact ⟨hsubset x hx, by simpa using hx⟩
  have hfilter_eq : ((dateRange a b).filter fun d => ds.contains d) = ds := by
    refine List.eq_of_perm_of_sorted (r := (· ≤ ·)) hfilter_perm ?_ ?_
    · exact ((dateRange_pairwise a b).filter _).imp le_of_lt
    · exact hsorted.imp le_of_lt
  have hmissing : missingOf conv = (dateRange a b).filter fun d => !ds.contains d := rfl
  have hperm2 : List.Perm (ds ++ missingOf conv) (dateRange a b) := by
    rw [hmissing]
    have h := List.filter_append_perm (fun d => ds.contains d) (dateRange a b)
    rw [hfilter_eq] at h
    exact h
  have hperm3 : List.Perm ((gapFill conv order).map Prod.fst) (dateRange a b) := by
    rw [gapFill_map_fst]
    exact (horder.append_left ds).trans hperm2
  have hsfinal : ((processCS input order).map Prod.fst).Pairwise (· ≤ ·) := by
    unfold processCS sortByDate
    rw [List.pairwise_map]
    exact List.sorted_insertionSort byDate (gapFill conv order)
  have hpermfinal :
      List.Perm ((processCS input order).map Prod.fst) (dateRange a b) := by
    unfold processCS sortByDate
    exact ((List.perm_insertionSort byDate _).map Prod.fst).trans hperm3
  exact List.eq_of_perm_of_sorted hpermfinal hsfinal
    ((dateRange_pairwise a b).imp le_of_lt)

/-- Witness for C3: two source days either side of a year boundary (Dec 26 of
2021 and Jan 1 of 2022), whose five-day gap is filled to the exact range. -/
theorem c3_normalized_series_exact_range_witness :
    (processCS [(((2021 : ℤ), 360), (1 : ℤ)), ((2022, 1), 2)]
        (missingOf (convertRowsCS [(((2021 : ℤ), 360), (1 : ℤ)), ((2022, 1), 2)]))).map
        Prod.fst =
      dateRange
        (((convertRowsCS [(((2021 : ℤ), 360), (1 : ℤ)), ((2022, 1), 2)]).map
          Prod.fst).headI)
        (((convertRowsCS [(((2021 : ℤ), 360), (1 : ℤ)), ((2022, 1), 2)]).map
          Prod.fst).getLastI) :=
  c3_normalized_series_exact_range _ _ (by decide) (by decide) (by decide)
    (List.Perm.refl _)

/-- The Python `min` fold stays inside the candidate list. -/
theorem nearest_foldl_mem (item : ℤ) (vs : List ℤ) :
    ∀ best : ℤ,
      vs.foldl (fun best x => if |x - item| < |best - item| then x else best) best ∈
        best :: vs := by
  induction vs with
  | nil => intro best; simp
  | cons x xs ih =>
    intro best
    simp only [List.foldl_cons]
    by_cases hc : |x - item| < |best - item|
    · rw [if_pos hc]
      rcases List.mem_cons.mp (ih x) with h | h
      · rw [h]; simp
      · simp [h]
    · rw [if_neg hc]
      rcases List.mem_cons.mp (ih best) with h | h
      · rw [h]; simp
      · simp [h]

theorem nearestDate_mem {item : ℤ} {l : List ℤ} (h : l ≠ []) :
    nearestDate item l ∈ l := by
  cases l with
  | nil => exact absurd rfl h
  | cons v vs => exact nearest_foldl_mem item vs v

/-- The Python `min` fold attains the minimal key among all candidates. -/
theorem nearest_foldl_min (item : ℤ) (vs : List ℤ) :
    ∀ best : ℤ, ∀ x ∈ best :: vs,
      |vs.foldl (fun best x => if |x - item| < |best - item| then x else best) best
        - item| ≤ |x - item| := by
  induction vs with
  | nil =>
    intro best x hx
    rcases List.mem_cons.mp hx with rfl | h
    · exact le_refl _
    · simp at h
  | cons y ys ih =>
    intro best x hx
    simp only [List.foldl_cons]
    have hkey : |(if |y - item| < |best - item| then y else best) - item| ≤ |best - item| ∧
        |(if |y - item| < |best - item| then y else best) - item| ≤ |y - item| := by
      by_cases hc : |y - item| < |best - item|
      · rw [if_pos hc]; exact ⟨hc.le, le_refl _⟩
      · rw [if_neg hc]; exact ⟨le_refl _, le_of_not_lt hc⟩
    rcases List.mem_cons.mp hx with rfl | hx'
    · exact le_trans (ih _ _ (by simp)) hkey.1
    · rcases List.mem_cons.mp hx' with rfl | hx''
      · exact le_trans (ih _ _ (by simp)) hkey.2
      · exact ih _ x (by simp [hx''])

/-- On a list sorted ascending, the Python `min` fold resolves ties toward
the earlier (smaller) date: it returns the first minimiser, which in a sorted
index is the earliest date. -/
theorem nearest_foldl_tie (item : ℤ) (vs : List ℤ) :
    ∀ best : ℤ, (best :: vs).Pairwise (· ≤ ·) →
      ∀ x ∈ best :: vs,
        |x - item| =
          |vs.foldl (fun best x => if |x - item| < |best - item| then x else best) best
            - item| →
        vs.foldl (fun best x => if |x - item| < |best - item| then x else best) best ≤ x := by
  induction vs with
  | nil =>
    intro best _ x hx _
    rcases List.mem_cons.mp hx with rfl | h
    · exact le_refl _
    · simp at h
  | cons y ys ih =>
    intro best hsorted x hx htie
    simp only [List.foldl_cons] at htie ⊢
    have hby : best ≤ y := (List.pairwise_cons.mp hsorted).1 y (by simp)
    have hbys : ∀ z ∈ ys, best ≤ z := fun z hz =>
      (List.pairwise_cons.mp hsorted).1 z (by simp [hz])
    have hyys := (List.pairwise_cons.mp hsorted).2
    by_cases hc : |y - item| < |best - item|
    · rw [if_pos hc] at htie ⊢
      have hmin := nearest_foldl_min item ys y y (by simp)
      rcases List.mem_cons.mp hx with hxb | hx1
      · exfalso
        rw [hxb] at htie
        linarith
      · rcases List.mem_cons.mp hx1 with hxy | hx2
        · rw [hxy] at htie ⊢
          exact ih y hyys y (by simp) htie
        · exact ih y hyys x (by simp [hx2]) htie
    · rw [if_neg hc] at htie ⊢
      have hsorted2 : (best :: ys).Pairwise (· ≤ ·) := by
        rw [List.pairwise_cons]
        exact ⟨hbys, (List.pairwise_cons.mp hyys).2⟩
      have hmin := nearest_foldl_min item ys best best (by simp)
      rcases List.mem_cons.mp hx with hxb | hx1
      · rw [hxb] at htie ⊢
        exact ih best hsorted2 best (by simp) htie
      · rcases List.mem_cons.mp hx1 with hxy | hx2
        · rw [hxy] at htie ⊢
          have hyb : |best - item| ≤ |y - item| := le_of_not_lt hc
          have htie2 : |best - item| =
              |ys.foldl (fun best x => if |x - item| < |best - item| then x else best) best
                - item| := by
            linarith
          exact le_trans (ih best hsorted2 best (by simp) htie2) hby
        · exact ih best hsorted2 x (by simp [hx2]) htie

theorem valueAt_mem {α : Type} [Inhabited α] {df : List (ℤ × α)} {d : ℤ}
    (h : d ∈ df.map Prod.fst) : ∃ q ∈ df, q.1 = d ∧ valueAt df d = q.2 := by
  unfold valueAt
  cases hf : df.find? fun p => p.1 == d with
  | none =>
    obtain ⟨q, hq, hqd⟩ := List.mem_map.mp h
    have hnone := List.find?_eq_none.mp hf q hq
    rw [hqd] at hnone
    simp at hnone
  | some p =>
    have hp := List.find?_some hf
    have hmem := List.mem_of_find?_eq_some hf
    exact ⟨p, hmem, by simpa using hp, rfl⟩

/-- Every row of the gap-filled frame carries a value copied from some row of
the initial frame. -/
theorem gapFill_values {α : Type} [Inhabited α] (order : List ℤ) :
    ∀ df : List (ℤ × α), df ≠ [] →
      ∀ p ∈ gapFill df order, ∃ q ∈ df, q.2 = p.2 := by
  induction order with
  | nil => intro df _ p hp; exact ⟨p, hp, rfl⟩
  | cons o os ih =>
    intro df hdf p hp
    have hstep : ∀ r ∈ gapFillStep df o, ∃ q ∈ df, q.2 = r.2 := by
      intro r hr
      rcases List.mem_append.mp hr with hr | hr
      · exact ⟨r, hr, rfl⟩
      · rw [List.mem_singleton] at hr
        subst hr
        have hmem : nearestDate o (df.map Prod.fst) ∈ df.map Prod.fst := by
          apply nearestDate_mem
          simpa using hdf
        obtain ⟨q, hq, _, hval⟩ := valueAt_mem hmem
        exact ⟨q, hq, hval.symm⟩
    have hne' : gapFillStep df o ≠ [] := by simp [gapFillStep]
    have hp' : p ∈ gapFill (gapFillStep df o) os := hp
    obtain ⟨q, hq, hqe⟩ := ih (gapFillStep df o) hne' p hp'
    obtain ⟨q', hq', hq'e⟩ := hstep q hq
    exact ⟨q', hq', by rw [hq'e, hqe]⟩

/-- C8 counterexample:  The claim asserts that every gap-filled row copies
the row of the nearest date present in the CONVERTED set.  With converted
days 55 and 65 of the non-leap year 2021 (ordinals 737845 and 737855,
values 5 and 7) and the missing days 56..64 processed in ascending order (a
legitimate iteration order of Python's `set`), the filled row for day 61
(ordinal 737851) carries value 5, copied via the already-filled day 60 —
while the nearest CONVERTED date is 737855 (distance 4 versus 6), whose row
has value 7. -/
theorem c8_counterexample :
    (737851, (5 : ℤ)) ∈ processCS [(((2021 : ℤ), 55), (5 : ℤ)), ((2021, 65), 7)]
        (missingOf (convertRowsCS [(((2021 : ℤ), 55), (5 : ℤ)), ((2021, 65), 7)])) ∧
    737851 ∉ (convertRowsCS [(((2021 : ℤ), 55), (5 : ℤ)), ((2021, 65), 7)]).map Prod.fst ∧
    nearestDate 737851
      ((convertRowsCS [(((2021 : ℤ), 55), (5 : ℤ)), ((2021, 65), 7)]).map Prod.fst) =
      737855 ∧
    valueAt (convertRowsCS [(((2021 : ℤ), 55), (5 : ℤ)), ((2021, 65), 7)]) 737855 = 7 ∧
    (5 : ℤ) ≠ 7 :=
  ⟨by decide, by decide, by decide, by decide, by decide⟩

/-- C8 amended:  Each gap-filled row copies, field by field, the row of
the nearest date present in the frame at the moment that missing day is
processed — the converted rows plus the previously filled days — so every
value in the normalised series originates from some converted row, but not
necessarily from the row of the nearest CONVERTED date (see the
counterexample).  The tie rule of the underlying `nearest` is: on a list
sorted ascending, among equidistant dates the earlier one is chosen. -/
theorem c8_amended_gapfill_nearest {α : Type} [Inhabited α]
    (input : List ((ℤ × ℕ) × α)) (order : List ℤ)
    (hconv : convertRowsCS input ≠ []) :
    (∀ p ∈ processCS input order, ∃ q ∈ convertRowsCS input, q.2 = p.2) ∧
    (∀ (item : ℤ) (l : List ℤ), l ≠ [] → l.Pairwise (· ≤ ·) →
      nearestDate item l ∈ l ∧
      (∀ x ∈ l, |nearestDate item l - item| ≤ |x - item|) ∧
      (∀ x ∈ l, |x - item| = |nearestDate item l - item| → nearestDate item l ≤ x)) := by
  constructor
  · intro p hp
    have hp' : p ∈ gapFill (convertRowsCS input) order :=
      (List.perm_insertionSort byDate _).mem_iff.mp hp
    exact gapFill_values order _ hconv p hp'
  · intro item l hl hs
    cases l with
    | nil => exact absurd rfl hl
    | cons v vs =>
      exact ⟨nearest_foldl_mem item vs v, nearest_foldl_min item vs v,
        nearest_foldl_tie item vs v hs⟩

/-- Witness for the amended C8 at the counterexample input. -/
theorem c8_amended_gapfill_nearest_witness :
    (∀ p ∈ processCS [(((2021 : ℤ), 55), (5 : ℤ)), ((2021, 65), 7)]
        (missingOf (convertRowsCS [(((2021 : ℤ), 55), (5 : ℤ)), ((2021, 65), 7)])),
      ∃ q ∈ convertRowsCS [(((2021 : ℤ), 55), (5 : ℤ)), ((2021, 65), 7)], q.2 = p.2) ∧
    (∀ (item : ℤ) (l : List ℤ), l ≠ [] → l.Pairwise (· ≤ ·) →
      nearestDate item l ∈ l ∧
      (∀ x ∈ l, |nearestDate item l - item| ≤ |x - item|) ∧
      (∀ x ∈ l, |x - item| = |nearestDate item l - item| → nearestDate item l ≤ x)) :=
  c8_amended_gapfill_nearest [(((2021 : ℤ), 55), (5 : ℤ)), ((2021, 65), 7)]
    (missingOf (convertRowsCS [(((2021 : ℤ), 55), (5 : ℤ)), ((2021, 65), 7)]))
    (by decide)

/-! ### Per-row unit conversion
(`NetCDFWeatherDataProvider._read_observations` and `_is_missing_value`) -/

/-- One raw row of the prepared dataframe, in the column order
`DAY, TMAX, TMIN, RAIN, IRRAD, WIND, SNOWDEPTH, VAP`; `day` is `Option`
because the source explicitly checks the `DAY` cell for `None`. -/
structure RawRow where
  day : Option ℤ
  tmax : ℚ
  tmin : ℚ
  rain : ℚ
  irrad : ℚ
  wind : ℚ
  snowdepth : ℚ
  vap : ℚ
  deriving DecidableEq, Repr

/-- A converted row: the unit-converted fields plus the three reference
evapotranspiration terms rescaled from mm/day to cm/day.  `snowdepth` is
`Option` because the configured `missing_snow_depth` default may be `None`. -/
structure ConvRow where
  day : ℤ
  tmax : ℚ
  tmin : ℚ
  rain : ℚ
  irrad : ℚ
  wind : ℚ
  snowdepth : Option ℚ
  vap : ℚ
  e0 : ℚ
  es0 : ℚ
  et0 : ℚ
  deriving DecidableEq, Repr

/-- Conversion from Kelvin to Celsius (`k_to_c`). -/
def k_to_c (x : ℚ) : ℚ :=
  x - 27315 / 100

/-- Conversion from precipitation flux to cm/day (`flux_to_cm`). -/
def flux_to_cm (x : ℚ) : ℚ :=
  x * 86400 / 10

/-- Identity conversion (`no_conversion`). -/
def no_conversion (x : ℚ) : ℚ :=
  x

/-- Embedding of `_is_missing_value`: a value equal to the configured
no-data sentinel within epsilon `0.0001`. -/
def isMissingValue (nodata v : ℚ) : Bool :=
  |v - nodata| < 1 / 10000

/-- The external collaborator `pcse.util.reference_ET`, a pure function of
the converted climate record (day, tmax, tmin, rain, irrad, wind, snowdepth,
vap) returning `(E0, ES0, ET0)` in mm/day; it is an explicit parameter of
the embedding. -/
def RefET : Type :=
  ℤ → ℚ → ℚ → ℚ → ℚ → ℚ → Option ℚ → ℚ → ℚ × ℚ × ℚ

/-- Per-row body of the `_read_observations` loop: a `None` day raises; a
no-data sentinel in any field other than `SNOWDEPTH` raises (dropping the
row); a sentinel snow depth is replaced by the configured
`missing_snow_depth`; the per-field conversion functions are applied and the
three reference-ET terms appended divided by 10.  `none` models the
`ValueError` caught by the loop. -/
def convertRow (nodata : ℚ) (missingSnow : Option ℚ) (refET : RefET)
    (r : RawRow) : Option ConvRow :=
  match r.day with
  | none => none
  | some d =>
    if isMissingValue nodata r.tmax then none
    else if isMissingValue nodata r.tmin then none
    else if isMissingValue nodata r.rain then none
    else if isMissingValue nodata r.irrad then none
    else if isMissingValue nodata r.wind then none
    else
      let snow : Option ℚ :=
        if isMissingValue nodata r.snowdepth then missingSnow else some r.snowdepth
      if isMissingValue nodata r.vap then none
      else
        let ets := refET d (k_to_c r.tmax) (k_to_c r.tmin) (flux_to_cm r.rain)
          (no_conversion r.irrad) (no_conversion r.wind) snow (no_conversion r.vap)
        some ⟨d, k_to_c r.tmax, k_to_c r.tmin, flux_to_cm r.rain,
          no_conversion r.irrad, no_conversion r.wind, snow, no_conversion r.vap,
          ets.1 / 10, ets.2.1 / 10, ets.2.2 / 10⟩

/-- The `_read_observations` row loop with explicit row index: stored rows
and the indices of the skipped rows (each skip logs a warning and the loop
continues). -/
def readObsAux (nodata : ℚ) (missingSnow : Option ℚ) (refET : RefET) :
    ℕ → List RawRow → List ConvRow × List ℕ
  | _, [] => ([], [])
  | i, r :: rs =>
    let rest := readObsAux nodata missingSnow refET (i + 1) rs
    match convertRow nodata missingSnow refET r with
    | some w => (w :: rest.1, rest.2)
    | none => (rest.1, i :: rest.2)

/-- Embedding of `_read_observations`: returns the stored weather records
and the indices of the dropped rows.  The function is total: the source has
no failure path at this level — every per-row error is caught, logged and
skipped. -/
def readObservations (nodata : ℚ) (missingSnow : Option ℚ) (refET : RefET)
    (rows : List RawRow) : List ConvRow × List ℕ :=
  readObsAux nodata missingSnow refET 0 rows

/-- The structure of the row loop: the stored rows are exactly the rows that
convert successfully (in order), and the dropped indices are exactly the
positions whose row fails conversion, shifted by the starting index. -/
theorem readObsAux_spec (nodata : ℚ) (missingSnow : Option ℚ) (refET : RefET) :
    ∀ (rows : List RawRow) (i : ℕ),
      (readObsAux nodata missingSnow refET i rows).1 =
        rows.filterMap (convertRow nodata missingSnow refET) ∧
      (readObsAux nodata missingSnow refET i rows).2 =
        ((List.range rows.length).filter fun j =>
          ((rows.get? j).bind (convertRow nodata missingSnow refET)).isNone).map
          fun j => i + j := by
  intro rows
  induction rows with
  | nil => intro i; constructor <;> rfl
  | cons r rs ih =>
    intro i
    obtain ⟨ih1, ih2⟩ := ih (i + 1)
    have hstep : readObsAux nodata missingSnow refET i (r :: rs) =
        match convertRow nodata missingSnow refET r with
        | some w => (w :: (readObsAux nodata missingSnow refET (i + 1) rs).1,
            (readObsAux nodata missingSnow refET (i + 1) rs).2)
        | none => ((readObsAux nodata missingSnow refET (i + 1) rs).1,
            i :: (readObsAux nodata missingSnow refET (i + 1) rs).2) := rfl
    have htail : (((List.range rs.length).map Nat.succ).filter fun j =>
          (((r :: rs).get? j).bind (convertRow nodata missingSnow refET)).isNone).map
          (fun j => i + j) =
        ((List.range rs.length).filter fun j =>
          ((rs.get? j).bind (convertRow nodata missingSnow refET)).isNone).map
          fun j => (i + 1) + j := by
      rw [List.filter_map, List.map_map]
      have hpred : ((fun j =>
          (((r :: rs).get? j).bind (convertRow nodata missingSnow refET)).isNone)
            ∘ Nat.succ) =
          fun j => ((rs.get? j).bind (convertRow nodata missingSnow refET)).isNone := by
        funext j
        rfl
      rw [hpred]
      refine List.map_congr_left ?_
      intro j _
      show i + (j + 1) = (i + 1) + j
      omega
    cases hr : convertRow nodata missingSnow refET r with
    | some w =>
      rw [hstep, hr]
      constructor
      · show w :: (readObsAux nodata missingSnow refET (i + 1) rs).1 = _
        rw [ih1, List.filterMap_cons, hr]
      · show (readObsAux nodata missingSnow refET (i + 1) rs).2 = _
        rw [ih2, List.length_cons, List.range_succ_eq_map, List.filter_cons]
        have h0 : ((((r :: rs).get? 0).bind
            (convertRow nodata missingSnow refET)).isNone : Bool) = false := by
          simp [hr]
        rw [h0]
        simp only [Bool.false_eq_true, if_false]
        rw [htail]
    | none =>
      rw [hstep, hr]
      constructor
      · show (readObsAux nodata missingSnow refET (i + 1) rs).1 = _
        rw [ih1, List.filterMap_cons, hr]
      · show i :: (readObsAux nodata missingSnow refET (i + 1) rs).2 = _
        rw [ih2, List.length_cons, List.range_succ_eq_map, List.filter_cons]
        have h0 : ((((r :: rs).get? 0).bind
            (convertRow nodata missingSnow refET)).isNone : Bool) = true := by
          simp [hr]
        rw [h0]
        simp only [if_true]
        rw [List.map_cons, htail]
        norm_num

/-- Formalisation of claim C4 as stated: there is a configured minimum
fraction such that the build fails (with `BuildError`) whenever fewer than
that fraction of the rows survive per-row conversion.  In the embedding,
`readObservations` is total — it always returns normally — so "fails on
such inputs" is rendered as those inputs being impossible to return from,
i.e. `False`. -/
def c4_claim : Prop :=
  ∃ f : ℚ, 0 < f ∧
    ∀ (nodata : ℚ) (missingSnow : Option ℚ) (refET : RefET) (rows : List RawRow),
      ((readObservations nodata missingSnow refET rows).1.length : ℚ) <
        f * rows.length → False

/-- C4 counterexample:  The source's `_read_observations` has no
`BuildError` and no minimum-fraction check: on a one-row input whose `TMAX`
holds the no-data sentinel, zero rows survive — below every positive
configured fraction — yet the build returns normally (with an empty series
and the row logged as skipped).  Hence no choice of minimum fraction makes
the claim true. -/
theorem c4_counterexample : ¬ c4_claim := by
  rintro ⟨f, hf, h⟩
  refine h (-999) none (fun _ _ _ _ _ _ _ _ => (0, 0, 0))
    [⟨some 0, -999, 0, 0, 0, 0, 0, 0⟩] ?_
  have hmiss : isMissingValue (-999) (-999 : ℚ) = true := by
    simp only [isMissingValue, decide_eq_true_eq]
    norm_num
  have hgen : ∀ refET : RefET,
      (readObservations (-999) none refET [⟨some 0, -999, 0, 0, 0, 0, 0, 0⟩]).1 = [] := by
    intro refET
    have hnone : convertRow (-999) none refET
        ⟨some 0, -999, 0, 0, 0, 0, 0, 0⟩ = none := by
      unfold convertRow
      simp [hmiss]
    have hsp := (readObsAux_spec (-999) none refET [⟨some 0, -999, 0, 0, 0, 0, 0, 0⟩] 0).1
    show (readObsAux (-999) none refET 0 [⟨some 0, -999, 0, 0, 0, 0, 0, 0⟩]).1 = []
    rw [hsp, List.filterMap_cons, hnone]
    rfl
  rw [hgen _]
  simpa using hf

/-- C4 amended:  The weather-series row conversion always returns: the
stored records are exactly the rows surviving per-row conversion, in order,
and the dropped-row indices are exactly the positions of the failing rows
(each logged with a warning); there is no `BuildError` and no
minimum-fraction threshold — even an input with zero surviving rows yields
a normally returned (empty) series. -/
theorem c4_amended_read_observations_total (nodata : ℚ) (missingSnow : Option ℚ)
    (refET : RefET) (rows : List RawRow) :
    (readObservations nodata missingSnow refET rows).1 =
      rows.filterMap (convertRow nodata missingSnow refET) ∧
    (readObservations nodata missingSnow refET rows).2 =
      (List.range rows.length).filter fun j =>
        ((rows.get? j).bind (convertRow nodata missingSnow refET)).isNone := by
  obtain ⟨h1, h2⟩ := readObsAux_spec nodata missingSnow refET rows 0
  refine ⟨h1, ?_⟩
  show (readObsAux nodata missingSnow refET 0 rows).2 = _
  rw [h2]
  have hid : (fun j : ℕ => 0 + j) = fun j : ℕ => j := funext fun j => Nat.zero_add j
  rw [hid]
  exact List.map_id _

/-- A row has the no-data sentinel in one of the required fields (every
field except the optional `SNOWDEPTH` and the date label). -/
def requiredSentinel (nodata : ℚ) (r : RawRow) : Prop :=
  isMissingValue nodata r.tmax = true ∨ isMissingValue nodata r.tmin = true ∨
  isMissingValue nodata r.rain = true ∨ isMissingValue nodata r.irrad = true ∨
  isMissingValue nodata r.wind = true ∨ isMissingValue nodata r.vap = true

/-- C7:  A sentinel value (within epsilon `0.0001`) in any required field
drops the whole row, and processing continues with the remaining rows; a
sentinel value in the optional `SNOWDEPTH` field is instead replaced by the
configured missing-snow-depth default and the row is kept. -/
theorem c7_sentinel_row_policy (nodata : ℚ) (missingSnow : Option ℚ) (refET : RefET)
    (r1 r2 : RawRow) (rest : List RawRow) (d1 d2 : ℤ)
    (hday1 : r1.day = some d1) (hday2 : r2.day = some d2)
    (hreq1 : requiredSentinel nodata r1)
    (hnreq2 : ¬ requiredSentinel nodata r2)
    (hsnow2 : isMissingValue nodata r2.snowdepth = true) :
    (convertRow nodata missingSnow refET r1 = none ∧
      (readObservations nodata missingSnow refET (r1 :: rest)).1 =
        (readObservations nodata missingSnow refET rest).1) ∧
    (∃ w, convertRow nodata missingSnow refET r2 = some w ∧
      w.snowdepth = missingSnow ∧
      (readObservations nodata missingSnow refET (r2 :: rest)).1 =
        w :: (readObservations nodata missingSnow refET rest).1) := by
  have hspec1 := (readObsAux_spec nodata missingSnow refET (r1 :: rest) 0).1
  have hspec2 := (readObsAux_spec nodata missingSnow refET (r2 :: rest) 0).1
  have hspecr := (readObsAux_spec nodata missingSnow refET rest 0).1
  constructor
  · have hnone : convertRow nodata missingSnow refET r1 = none := by
      unfold convertRow
      rw [hday1]
      split_ifs <;> try rfl
      all_goals (exfalso; rcases hreq1 with h | h | h | h | h | h <;> simp_all)
    refine ⟨hnone, ?_⟩
    show (readObsAux nodata missingSnow refET 0 (r1 :: rest)).1 =
      (readObsAux nodata missingSnow refET 0 rest).1
    rw [hspec1, List.filterMap_cons, hnone, hspecr]
  · have h1 : isMissingValue nodata r2.tmax = false :=
      Bool.eq_false_iff.mpr fun hh => hnreq2 (Or.inl hh)
    have h2 : isMissingValue nodata r2.tmin = false :=
      Bool.eq_false_iff.mpr fun hh => hnreq2 (Or.inr (Or.inl hh))
    have h3 : isMissingValue nodata r2.rain = false :=
      Bool.eq_false_iff.mpr fun hh => hnreq2 (Or.inr (Or.inr (Or.inl hh)))
    have h4 : isMissingValue nodata r2.irrad = false :=
      Bool.eq_false_iff.mpr fun hh => hnreq2 (Or.inr (Or.inr (Or.inr (Or.inl hh))))
    have h5 : isMissingValue nodata r2.wind = false :=
      Bool.eq_false_iff.mpr fun hh =>
        hnreq2 (Or.inr (Or.inr (Or.inr (Or.inr (Or.inl hh)))))
    have h6 : isMissingValue nodata r2.vap = false :=
      Bool.eq_false_iff.mpr fun hh =>
        hnreq2 (Or.inr (Or.inr (Or.inr (Or.inr (Or.inr hh)))))
    have hsome : convertRow nodata missingSnow refET r2 = some
        ⟨d2, k_to_c r2.tmax, k_to_c r2.tmin, flux_to_cm r2.rain,
          no_conversion r2.irrad, no_conversion r2.wind, missingSnow,
          no_conversion r2.vap,
          (refET d2 (k_to_c r2.tmax) (k_to_c r2.tmin) (flux_to_cm r2.rain)
            (no_conversion r2.irrad) (no_conversion r2.wind) missingSnow
            (no_conversion r2.vap)).1 / 10,
          (refET d2 (k_to_c r2.tmax) (k_to_c r2.tmin) (flux_to_cm r2.rain)
            (no_conversion r2.irrad) (no_conversion r2.wind) missingSnow
            (no_conversion r2.vap)).2.1 / 10,
          (refET d2 (k_to_c r2.tmax) (k_to_c r2.tmin) (flux_to_cm r2.rain)
            (no_conversion r2.irrad) (no_conversion r2.wind) missingSnow
            (no_conversion r2.vap)).2.2 / 10⟩ := by
      unfold convertRow
      rw [hday2]
      simp only [h1, h2, h3, h4, h5, h6, hsnow2, Bool.false_eq_true, if_false, if_true]
    refine ⟨_, hsome, rfl, ?_⟩
    show (readObsAux nodata missingSnow refET 0 (r2 :: rest)).1 =
      _ :: (readObsAux nodata missingSnow refET 0 rest).1
    rw [hspec2, List.filterMap_cons, hsome, hspecr]

/-- Witness for C7: `TMAX` sentinel drops the first row; a snow-depth-only
sentinel keeps the second row with the configured default. -/
theorem c7_sentinel_row_policy_witness :
    (convertRow (-999) (some 0) (fun _ _ _ _ _ _ _ _ => (0, 0, 0))
        ⟨some 1, -999, 1, 1, 1, 1, 0, 1⟩ = none ∧
      (readObservations (-999) (some 0) (fun _ _ _ _ _ _ _ _ => (0, 0, 0))
          (⟨some 1, -999, 1, 1, 1, 1, 0, 1⟩ :: [])).1 =
        (readObservations (-999) (some 0) (fun _ _ _ _ _ _ _ _ => (0, 0, 0)) []).1) ∧
    (∃ w, convertRow (-999) (some 0) (fun _ _ _ _ _ _ _ _ => (0, 0, 0))
        ⟨some 2, 1, 1, 1, 1, 1, -999, 1⟩ = some w ∧
      w.snowdepth = some 0 ∧
      (readObservations (-999) (some 0) (fun _ _ _ _ _ _ _ _ => (0, 0, 0))
          (⟨some 2, 1, 1, 1, 1, 1, -999, 1⟩ :: [])).1 =
        w :: (readObservations (-999) (some 0) (fun _ _ _ _ _ _ _ _ => (0, 0, 0)) []).1) :=
  c7_sentinel_row_policy (-999) (some 0) (fun _ _ _ _ _ _ _ _ => (0, 0, 0))
    ⟨some 1, -999, 1, 1, 1, 1, 0, 1⟩ ⟨some 2, 1, 1, 1, 1, 1, -999, 1⟩ [] 1 2
    rfl rfl
    (Or.inl (by simp only [isMissingValue, decide_eq_true_eq]; norm_num))
    (by simp only [requiredSentinel, isMissingValue, decide_eq_true_eq]; norm_num)
    (by simp only [isMissingValue, decide_eq_true_eq]; norm_num)

/-! ### Cache decision sequence (`NetCDFWeatherDataProvider.__init__`) -/

/-- Observable outcome of one call to `_get_and_process_chessscape`: success,
a `FileNotFoundError` (the only exception the stale branch catches), or any
other exception. -/
inductive BuildOutcome where
  | ok
  | fileNotFound
  | otherError
  deriving DecidableEq, Repr

/-- Observable result of the cache decision sequence in `__init__`. -/
inductive InitResult where
  | builtFresh
  | fromCache
  | raised (e : BuildOutcome)
  | staleCacheLoadFailed
  deriving DecidableEq, Repr

/-- Embedding of the cache lookup of `NetCDFWeatherDataProvider.__init__`,
as a function of the facts the code branches on: whether a cache file
exists, `force_update`, the file's age in days, whether `_load_cache_file`
succeeds, and the outcome of `_get_and_process_chessscape`.  Returns the
observable result and the number of build invocations.  Faithful to the
source: a missing file or forced update builds unconditionally (exceptions
propagate); a file younger than 90 days is loaded, with a failed load
falling through to a build; an older file triggers a rebuild whose
`FileNotFoundError` — and only that error — is caught and answered by
loading the stale file, raising `PCSEError` if that load also fails. -/
def netcdfInitCache (cacheExists forceUpdate : Bool) (age : ℕ) (loadOk : Bool)
    (build : BuildOutcome) : InitResult × ℕ :=
  if !cacheExists || forceUpdate then
    match build with
    | .ok => (.builtFresh, 1)
    | .fileNotFound => (.raised .fileNotFound, 1)
    | .otherError => (.raised .otherError, 1)
  else if age < 90 then
    if loadOk then (.fromCache, 0)
    else
      match build with
      | .ok => (.builtFresh, 1)
      | .fileNotFound => (.raised .fileNotFound, 1)
      | .otherError => (.raised .otherError, 1)
  else
    match build with
    | .ok => (.builtFresh, 1)
    | .fileNotFound => if loadOk then (.fromCache, 1) else (.staleCacheLoadFailed, 1)
    | .otherError => (.raised .otherError, 1)

/-- C2 counterexample:  The claim says a `Stale` entry whose rebuild
fails is answered by returning the old stale entry.  The source catches only
`FileNotFoundError`: a stale cache entry (age 90) with a rebuild failing
with any other exception propagates that exception instead of serving the
stale entry — and, for the Fresh conjunct, a fresh entry that exists but
fails to load triggers a rebuild (one build invocation, not zero). -/
theorem c2_counterexample :
    netcdfInitCache true false 90 true .otherError = (.raised .otherError, 1) ∧
    (InitResult.raised .otherError ≠ InitResult.fromCache) ∧
    netcdfInitCache true false 10 false .ok = (.builtFresh, 1) := by
  refine ⟨rfl, by decide, rfl⟩

/-- C2 amended:  A cache entry younger than 90 days that loads
successfully is served with zero build invocations; a fresh entry that fails
to load is rebuilt.  A stale entry (90 days or older) triggers exactly one
rebuild: on success the new data is served; on a `FileNotFoundError` — the
only failure the source catches — the old stale entry is loaded and served
(with a diagnostic), and if that load fails a `PCSEError` is raised; any
other rebuild failure propagates.  With no cache entry, the build runs
unconditionally and its failure propagates. -/
theorem c2_amended_cache_decision (ageF ageS : ℕ) (build buildBad : BuildOutcome)
    (force : Bool)
    (hF : ageF < 90) (hS : 90 ≤ ageS) (hbad : buildBad ≠ .ok) :
    netcdfInitCache true false ageF true build = (.fromCache, 0) ∧
    netcdfInitCache true false ageF false .ok = (.builtFresh, 1) ∧
    netcdfInitCache true false ageS true .ok = (.builtFresh, 1) ∧
    netcdfInitCache true false ageS true .fileNotFound = (.fromCache, 1) ∧
    netcdfInitCache true false ageS false .fileNotFound = (.staleCacheLoadFailed, 1) ∧
    netcdfInitCache true false ageS true .otherError = (.raised .otherError, 1) ∧
    netcdfInitCache false force ageS true buildBad = (.raised buildBad, 1) := by
  have hnS : ¬ ageS < 90 := by omega
  refine ⟨?_, ?_, ?_, ?_, ?_, ?_, ?_⟩
  · simp [netcdfInitCache, hF]
  · simp [netcdfInitCache, hF]
  · simp [netcdfInitCache, hnS]
  · simp [netcdfInitCache, hnS]
  · simp [netcdfInitCache, hnS]
  · simp [netcdfInitCache, hnS]
  · cases buildBad with
    | ok => exact absurd rfl hbad
    | fileNotFound => simp [netcdfInitCache]
    | otherError => simp [netcdfInitCache]

/-- Witness for the amended C2 at ages 10 (fresh) and 90 (stale). -/
theorem c2_amended_cache_decision_witness :
    netcdfInitCache true false 10 true .otherError = (.fromCache, 0) ∧
    netcdfInitCache true false 10 false .ok = (.builtFresh, 1) ∧
    netcdfInitCache true false 90 true .ok = (.builtFresh, 1) ∧
    netcdfInitCache true false 90 true .fileNotFound = (.fromCache, 1) ∧
    netcdfInitCache true false 90 false .fileNotFound = (.staleCacheLoadFailed, 1) ∧
    netcdfInitCache true false 90 true .otherError = (.raised .otherError, 1) ∧
    netcdfInitCache false true 90 true .fileNotFound = (.raised .fileNotFound, 1) :=
  c2_amended_cache_decision 10 90 .otherError .fileNotFound true
    (by norm_num) (by norm_num) (by decide)

end UkWofost
